import Mathlib

set_option linter.unusedSectionVars false

/-!
Verification of the `@discordiumjs/emitter` event dispatcher
(`src/lib/Emitter.ts`) against its natural-language specification.

The dispatcher is embedded shallowly:

* A listener (a JS callback object) is identified by a numeric reference
  id (`Nat`).  The callback table `cbs` of the state maps each id to its
  source string (`String(callback)`) and its behaviour when invoked.
* The listener registry (`Map<eventName, Set<listener>>`) becomes an
  insertion-ordered association list `List (String × List Nat)` with
  unique keys; a JS `Set` becomes an insertion-ordered duplicate-free
  `List Nat`.
* The per-callback metadata object `listenerData` becomes a total map
  `meta : Nat → ListenerData`.  `Object.defineProperty` creates
  non-configurable, non-writable properties, so redefining `once` with a
  different value throws a `TypeError`; `defineOnce` returns `none` in
  that case.
* Promises created by `onceAsync` live in a store `promises` indexed by
  freshly allocated ids; resolving is a transition from `pending` to
  `resolved args` and is a no-op on an already settled promise.
* A listener returning a promise-like value causes `emit` to defer the
  bookkeeping to a continuation; the model records the scheduled
  continuation in `pendingConts` (it runs only after `emit` returns,
  outside the modelled operations).
-/

/-- Per-listener metadata (`listenerData` in the source).  `once` is
`none` while the property has not yet been defined; it is created by
`Object.defineProperty` as a non-configurable field. -/
structure ListenerData where
  suspended : Bool := false
  once : Option Bool := none
  listened : Bool := false
deriving DecidableEq, Repr, Inhabited

/-- The `EmitterOptions` object: `limitWarn` is `none` when absent. -/
structure EmitterOptions where
  limitWarn : Option Bool := none
deriving DecidableEq, Repr, Inhabited

/-- Modelled from the spec: `src/lib/util/DefaultOptions.ts` is not under
`src/`; per the spec the single recognized option `limitWarn` defaults to
`true`. -/
def DefaultEmitterOptions : EmitterOptions := { limitWarn := some true }

/-- Model of `Emitter.handleEmitterOptions`: use the given options (or the default
object), then fill `limitWarn` with `true` when it is undefined. -/
def handleEmitterOptions (emitterOptions : Option EmitterOptions) : EmitterOptions :=
  let options := match emitterOptions with
    | some o => o
    | none => DefaultEmitterOptions
  if options.limitWarn = none then { options with limitWarn := some true } else options

/-- State of one promise in the store backing `onceAsync`. -/
inductive PromState (V : Type) where
  | unalloc
  | pending
  | resolved (args : List V)
  | rejected
deriving DecidableEq, Repr

/-- The value a callback invocation returns: either an immediate value or
a promise-like object (a value with a callable `then`). -/
inductive CbRet (V : Type) where
  | imm (v : V)
  | prom (v : V)
deriving DecidableEq, Repr

/-- Model of `isPromiseLike` from `src` utilities: classifies a returned value. -/
def isPromiseLike {V : Type} : CbRet V → Bool
  | .imm _ => false
  | .prom _ => true

/-- Behaviour of a callback: an ordinary function of the emitted
arguments, or the synthetic closure created by `onceAsync`, which
resolves its captured promise and returns `undefined` (modelled by
`default`). -/
inductive CbBody (V : Type) where
  | ret (f : List V → CbRet V)
  | resolver (pid : Nat)

/-- A callback object: its source string (`String(callback)`) and its
behaviour. -/
structure Cb (V : Type) where
  str : String
  body : CbBody V

/-- The whole mutable state reachable from an `Emitter` instance:
callback table, listener registry, per-callback metadata, the shared
`warned` flag, the promise store, scheduled promise continuations, and
fresh-id counters. -/
structure EmitterState (V : Type) where
  cbs : Nat → Cb V
  registry : List (String × List Nat)
  meta : Nat → ListenerData
  warned : Bool
  promises : Nat → PromState V
  pendingConts : List (String × Nat × V)
  nextFid : Nat
  nextPid : Nat

/-- Construction-time configuration: resolved options and the optional
limits mapping. -/
structure EmitterCfg where
  options : EmitterOptions
  limits : Option (String → Option Nat)

/-- The constructor `new Emitter(emitterOptions?, limits?)`. -/
def mkEmitter (emitterOptions : Option EmitterOptions)
    (limits : Option (String → Option Nat)) : EmitterCfg :=
  ⟨handleEmitterOptions emitterOptions, limits⟩

/-- Pointwise update of a function, used for callback/metadata/promise
stores. -/
def updf {α : Type} (f : Nat → α) (a : Nat) (b : α) : Nat → α :=
  fun x => if x = a then b else f x

/-- Model of `Map.get`: first binding of the key, in insertion order. -/
def regGet (r : List (String × List Nat)) (e : String) : Option (List Nat) :=
  match r with
  | [] => none
  | q :: rest => if q.1 = e then some q.2 else regGet rest e

/-- Model of `Map.set`: replace the value at an existing key in place, otherwise
append the new binding. -/
def regSet (r : List (String × List Nat)) (e : String) (v : List Nat) :
    List (String × List Nat) :=
  match r with
  | [] => [(e, v)]
  | q :: rest => if q.1 = e then (e, v) :: rest else q :: regSet rest e v

/-- Model of `Map.delete`: drop the binding of the key. -/
def regDelete (r : List (String × List Nat)) (e : String) :
    List (String × List Nat) :=
  r.filter (fun q => q.1 ≠ e)

/-- Model of `Set.add`: append unless already present (reference identity). -/
def setAdd (l : List Nat) (x : Nat) : List Nat :=
  if x ∈ l then l else l ++ [x]

/-- Model of `Set.add` on the result set of `emit` (JS `Set` of values,
SameValueZero equality). -/
def setAddV {V : Type} [DecidableEq V] (l : List V) (v : V) : List V :=
  if v ∈ l then l else l ++ [v]

/-- The collection registered under a name, or the empty collection. -/
def regGetD {V : Type} (s : EmitterState V) (e : String) : List Nat :=
  (regGet s.registry e).getD []

/-- Model of `Object.defineProperty(listenerData, 'once', { value := v })`: the
property is non-configurable and non-writable, so a second definition
succeeds only with the same value (`SameValue`); otherwise a `TypeError`
is thrown, modelled by `none`. -/
def defineOnce (d : ListenerData) (v : Bool) : Option ListenerData :=
  match d.once with
  | none => some { d with once := some v }
  | some w => if w = v then some d else none

namespace Emitter

variable {V : Type} [DecidableEq V] [Inhabited V]

/-- Result of a registration call: the state after the call, whether the
soft-limit warning was emitted during the call, and whether a `TypeError`
escaped the call. -/
structure RegResult (V : Type) where
  state : EmitterState V
  warning : Bool
  threw : Bool

/-- Common body of `on` (with `isOnce = false`) and `once` (with
`isOnce = true`): ensure the metadata object exists, define the `once`
property write-once, insert the callback into the named collection, then
run the soft-limit warning check.  The warning guard compares the limits
object against the string `'undefined'` (always unequal) and then indexes
into the limits value, which throws a `TypeError` when `limits` is
absent. -/
def onWith (isOnce : Bool) (cfg : EmitterCfg) (s : EmitterState V)
    (e : String) (fid : Nat) : RegResult V :=
  let ins : Option (EmitterState V) :=
    match regGet s.registry e with
    | none =>
      (defineOnce (s.meta fid) isOnce).map (fun d =>
        { s with meta := updf s.meta fid d,
                 registry := regSet s.registry e [fid] })
    | some l =>
      (defineOnce (s.meta fid) isOnce).map (fun d =>
        { s with meta := updf s.meta fid d,
                 registry := regSet s.registry e (setAdd l fid) })
  match ins with
  | none => ⟨s, false, true⟩
  | some s1 =>
    match cfg.limits with
    | none => ⟨s1, false, true⟩
    | some lim =>
      let cond : Bool := match lim e with
        | some n => decide ((regGetD s1 e).length < n)
        | none => false
      if cond && !s1.warned && (cfg.options.limitWarn = some true) then
        ⟨{ s1 with warned := true }, true, false⟩
      else ⟨s1, false, false⟩

/-- Model of `Emitter.on`. -/
def «on» (cfg : EmitterCfg) (s : EmitterState V) (e : String) (fid : Nat) :
    RegResult V :=
  onWith false cfg s e fid

/-- Model of `Emitter.once`. -/
def once (cfg : EmitterCfg) (s : EmitterState V) (e : String) (fid : Nat) :
    RegResult V :=
  onWith true cfg s e fid

/-- Model of `String(listener)` for the optional argument of `off`:
`String(undefined)` is the text `undefined`. -/
def argStr (s : EmitterState V) : Option Nat → String
  | none => "undefined"
  | some a => (s.cbs a).str

/-- The removal loop of `off`: iterate the live collection in insertion
order (an element deleted before being reached is skipped) and, whenever
the string of the supplied listener equals the string of the visited
callback, delete the **supplied** listener from the collection
(`listeners.delete(listener)`); deleting `undefined` never matches a
stored callback. -/
def offIter (s : EmitterState V) (larg : Option Nat) :
    List Nat → List Nat → List Nat
  | [], cur => cur
  | c :: pend, cur =>
    if c ∈ cur then
      if argStr s larg = (s.cbs c).str then
        offIter s larg pend (match larg with
          | none => cur
          | some a => cur.erase a)
      else offIter s larg pend cur
    else offIter s larg pend cur

/-- The registry produced by `off`: run the removal loop, then keep the
mutated collection if it is non-empty and delete the event name
otherwise; a missing collection leaves the registry unchanged. -/
def offRegistry (s : EmitterState V) (e : String) (larg : Option Nat) :
    List (String × List Nat) :=
  match regGet s.registry e with
  | none => s.registry
  | some l =>
    let l2 := offIter s larg l l
    if 0 < l2.length then regSet s.registry e l2
    else regDelete s.registry e

/-- Model of `Emitter.off` (returns `this`, i.e. the updated state). -/
def off (s : EmitterState V) (e : String) (larg : Option Nat) :
    EmitterState V :=
  { s with registry := offRegistry s e larg }

/-- Model of `Object.defineProperty(listenerData, 'listened', { value := true })`
performed by `emit`; redefining with the same value never throws. -/
def setListened (s : EmitterState V) (c : Nat) : EmitterState V :=
  { s with meta := updf s.meta c { s.meta c with listened := true } }

/-- Model of `resolve(args)` on a promise: settles a pending promise, no-op on a
settled one. -/
def resolveProm (s : EmitterState V) (pid : Nat) (args : List V) :
    EmitterState V :=
  match s.promises pid with
  | .pending => { s with promises := updf s.promises pid (.resolved args) }
  | _ => s

/-- Invoke a callback with the emitted arguments: an ordinary callback is
pure; the synthetic `onceAsync` closure resolves its promise and returns
`undefined`. -/
def invokeCb (s : EmitterState V) (c : Nat) (args : List V) :
    EmitterState V × CbRet V :=
  match (s.cbs c).body with
  | .ret f => (s, f args)
  | .resolver pid => (resolveProm s pid args, .imm default)

/-- The immediate return value a callback contributes to the result set,
if any (`none` for a promise-like return). -/
def immRet (cbs : Nat → Cb V) (args : List V) (c : Nat) : Option V :=
  match (cbs c).body with
  | .ret f =>
    match f args with
    | .imm v => some v
    | .prom _ => none
  | .resolver _ => some default

/-- Output of `emit`: final state, the returned result set (in insertion
order), and the trace of listener invocations with their arguments. -/
structure EmitOut (V : Type) where
  state : EmitterState V
  results : List V
  trace : List (Nat × List V)

/-- The dispatch loop of `emit` over the live collection: skip a
suspended listener; otherwise invoke it, and for an immediate result mark
`listened`, perform `off` for the callback when its metadata `once` is
true, and add the result to the result set; for a promise-like result
schedule a continuation and add nothing yet. -/
def emitLoop (e : String) (args : List V) :
    List Nat → EmitterState V → List V → List (Nat × List V) → EmitOut V
  | [], s, res, tr => ⟨s, res, tr⟩
  | c :: rest, s, res, tr =>
    if c ∈ regGetD s e then
      if (s.meta c).suspended then
        emitLoop e args rest s res tr
      else
        let ir := invokeCb s c args
        match ir.2 with
        | .imm v =>
          let s2 := setListened ir.1 c
          let s3 := if (s2.meta c).once = some true then off s2 e (some c) else s2
          emitLoop e args rest s3 (setAddV res v) (tr ++ [(c, args)])
        | .prom v =>
          emitLoop e args rest
            { ir.1 with pendingConts := ir.1.pendingConts ++ [(e, c, v)] }
            res (tr ++ [(c, args)])
    else
      emitLoop e args rest s res tr

/-- Model of `Emitter.emit`: empty result set when no collection exists, otherwise
run the dispatch loop over the collection. -/
def emit (s : EmitterState V) (e : String) (args : List V) : EmitOut V :=
  match regGet s.registry e with
  | none => ⟨s, [], []⟩
  | some l => emitLoop e args l s [] []

/-- Source string shared by every synthetic closure `onceAsync` registers
(all such closures have the same source text). -/
def onceAsyncStr : String := "onceAsync resolver closure"

/-- Model of `Emitter.onceAsync`: allocate a promise, register a synthetic
`once` listener that resolves it with the emitted arguments, and return
the promise.  A `TypeError` thrown inside the executor rejects the
promise instead of escaping. -/
def onceAsync (cfg : EmitterCfg) (s : EmitterState V) (e : String) :
    EmitterState V × Nat :=
  let pid := s.nextPid
  let fid := s.nextFid
  let s1 : EmitterState V :=
    { s with nextPid := pid + 1, nextFid := fid + 1,
             promises := updf s.promises pid .pending,
             cbs := updf s.cbs fid ⟨onceAsyncStr, .resolver pid⟩ }
  let r := once cfg s1 e fid
  if r.threw then
    ({ r.state with promises := updf r.state.promises pid .rejected }, pid)
  else (r.state, pid)

/-- Model of `Emitter.hasListener`: without a callback, key existence; with one,
whether some member's string equals the callback's string. -/
def hasListener (s : EmitterState V) (e : String) (carg : Option Nat) :
    Bool :=
  match carg with
  | none => (regGet s.registry e).isSome
  | some c =>
    match regGet s.registry e with
    | some l => l.any (fun m => (s.cbs m).str = (s.cbs c).str)
    | none => false

/-- Model of `Emitter.isListened`: whether some registered listener under the name
has its `listened` flag set. -/
def isListened (s : EmitterState V) (e : String) : Bool :=
  match regGet s.registry e with
  | some l => l.any (fun c => (s.meta c).listened)
  | none => false

/-- Truthiness of the optional event-name argument of `listenerCount`
(`if (eventName)`): absent and the empty string are both falsy. -/
def eventTruthy : Option String → Bool
  | none => false
  | some e => e ≠ ""

/-- Model of `Emitter.listenerCount`: with a truthy name, that collection's size
(or 0); otherwise the sum of all collection sizes. -/
def listenerCount (s : EmitterState V) (earg : Option String) : Nat :=
  if eventTruthy earg then
    match regGet s.registry (earg.getD "") with
    | some l => l.length
    | none => 0
  else
    s.registry.foldl (fun acc q => acc + q.2.length) 0

/-- A sequence of `emit` calls for one event name; returns the final
state and the invocation trace of each call. -/
def emitMany (e : String) :
    List (List V) → EmitterState V → EmitterState V × List (List (Nat × List V))
  | [], s => (s, [])
  | args :: rest, s =>
    let o := emit s e args
    let r := emitMany e rest o.state
    (r.1, o.trace :: r.2)


/-- The collection stored for the event name by a successful
registration. -/
def insColl (s : EmitterState V) (e : String) (fid : Nat) : List Nat :=
  match regGet s.registry e with
  | none => [fid]
  | some l => setAdd l fid

/-- The state `onceAsync` builds before registering its synthetic
listener: fresh promise (pending) and fresh callback (the resolver). -/
def asyncPre (s : EmitterState V) : EmitterState V :=
  { s with nextPid := s.nextPid + 1, nextFid := s.nextFid + 1,
           promises := updf s.promises s.nextPid .pending,
           cbs := updf s.cbs s.nextFid ⟨onceAsyncStr, .resolver s.nextPid⟩ }

end Emitter

/-- Well-formedness of the registry: event names are unique, and every
registered collection is non-empty and duplicate-free. -/
def RegWF (r : List (String × List Nat)) : Prop :=
  (r.map Prod.fst).Nodup ∧ ∀ q ∈ r, q.2 ≠ [] ∧ q.2.Nodup

instance : DecidablePred RegWF := fun r => by
  unfold RegWF; infer_instance

/-! ### Concrete scenario states used by witnesses and counterexamples -/

/-- Configuration without a limits mapping (`new Emitter()`). -/
def cfgN : EmitterCfg := ⟨⟨some true⟩, none⟩

/-- Configuration with an empty limits mapping. -/
def cfgE : EmitterCfg := ⟨⟨some true⟩, some (fun _ => none)⟩

/-- Default callback table: every id maps to a trivial callback. -/
def baseCbs : Nat → Cb String := fun _ => ⟨"", .ret (fun _ => .imm "")⟩

/-- The freshly constructed dispatcher state. -/
def st0 : EmitterState String :=
  { cbs := baseCbs, registry := [], meta := fun _ => {}, warned := false,
    promises := fun _ => .unalloc, pendingConts := [], nextFid := 0,
    nextPid := 0 }

/-! ### Claims -/

/-- The doner/kebab scenario from the spec: two listeners registered
under "foo". -/
def c1State : EmitterState String :=
  { cbs := updf (updf baseCbs 1 ⟨"f1", .ret (fun _ => .imm "doner")⟩) 2
      ⟨"f2", .ret (fun _ => .imm "kebab")⟩,
    registry := [("foo", [1, 2])], meta := fun _ => {}, warned := false,
    promises := fun _ => .unalloc, pendingConts := [], nextFid := 3,
    nextPid := 0 }

/-- State with a collection registered under the empty-string event name
(one listener) and another under "a" (two listeners). -/
def c10State : EmitterState String :=
  { cbs := baseCbs, registry := [("", [7]), ("a", [8, 9])],
    meta := fun _ => {}, warned := false, promises := fun _ => .unalloc,
    pendingConts := [], nextFid := 10, nextPid := 0 }

/-- A single once-listener registered under "ev". -/
def c2State : EmitterState String :=
  { cbs := updf baseCbs 1 ⟨"g1", .ret (fun _ => .imm "r")⟩,
    registry := [("ev", [1])],
    meta := updf (fun _ => {}) 1 ⟨false, some true, false⟩,
    warned := false, promises := fun _ => .unalloc, pendingConts := [],
    nextFid := 2, nextPid := 0 }

/-- A once-listener (id 1) followed by a sibling (id 2) with the same
source string, both registered under "tw". -/
def c7State : EmitterState String :=
  { cbs := updf (updf baseCbs 1 ⟨"twin", .ret (fun _ => .imm "x1")⟩) 2
      ⟨"twin", .ret (fun _ => .imm "x2")⟩,
    registry := [("tw", [1, 2])],
    meta := updf (fun _ => {}) 1 ⟨false, some true, false⟩,
    warned := false, promises := fun _ => .unalloc, pendingConts := [],
    nextFid := 3, nextPid := 0 }

/-- Limits mapping `foo := 5` with warnings enabled. -/
def c4cfg : EmitterCfg :=
  ⟨⟨some true⟩, some (fun x => if x = "foo" then some 5 else none)⟩

/-- Two distinct callbacks (ids 1 and 2) with identical source strings,
both registered under "foo". -/
def c5State : EmitterState String :=
  { cbs := updf (updf baseCbs 1 ⟨"dup", .ret (fun _ => .imm "a")⟩) 2
      ⟨"dup", .ret (fun _ => .imm "b")⟩,
    registry := [("foo", [1, 2])], meta := fun _ => {}, warned := false,
    promises := fun _ => .unalloc, pendingConts := [], nextFid := 3,
    nextPid := 0 }

/-- One listener (id 4) registered under "bar". -/
def c5wState : EmitterState String :=
  { cbs := updf baseCbs 4 ⟨"h", .ret (fun _ => .imm "z")⟩,
    registry := [("bar", [4])], meta := fun _ => {}, warned := false,
    promises := fun _ => .unalloc, pendingConts := [], nextFid := 5,
    nextPid := 0 }

/-- One listener (id 6) registered under "k". -/
def c9State : EmitterState String :=
  { cbs := updf baseCbs 6 ⟨"p", .ret (fun _ => .imm "q")⟩,
    registry := [("k", [6])], meta := fun _ => {}, warned := false,
    promises := fun _ => .unalloc, pendingConts := [], nextFid := 7,
    nextPid := 0 }


/-! ### Basic lemmas about the store and registry primitives -/

@[simp] theorem updf_self {α : Type} (f : Nat → α) (a : Nat) (b : α) :
    updf f a b a = b := by
  simp [updf]

theorem updf_ne {α : Type} (f : Nat → α) {a x : Nat} (b : α) (h : x ≠ a) :
    updf f a b x = f x := by
  simp [updf, h]

@[simp] theorem regGet_regSet_self (r : List (String × List Nat)) (e : String)
    (v : List Nat) : regGet (regSet r e v) e = some v := by
  induction r with
  | nil => simp [regSet, regGet]
  | cons q rest ih =>
    by_cases h : q.1 = e
    · simp [regSet, regGet, h]
    · simp [regSet, regGet, h, ih]

theorem regGet_regSet_ne (r : List (String × List Nat)) {e e' : String}
    (v : List Nat) (h : e' ≠ e) : regGet (regSet r e v) e' = regGet r e' := by
  have h' : ¬ e = e' := fun hh => h hh.symm
  induction r with
  | nil => simp [regSet, regGet, h']
  | cons q rest ih =>
    by_cases hq : q.1 = e
    · subst hq
      simp [regSet, regGet, h']
    · simp [regSet, regGet, hq, ih]

theorem regGet_eq_none_iff {r : List (String × List Nat)} {e : String} :
    regGet r e = none ↔ e ∉ r.map Prod.fst := by
  induction r with
  | nil => simp [regGet]
  | cons q rest ih =>
    by_cases h : q.1 = e
    · simp [regGet, h]
    · simp only [regGet, if_neg h, List.map_cons, List.mem_cons, ih]
      constructor
      · rintro hn (he | he)
        · exact h he.symm
        · exact hn he
      · intro hn he
        exact hn (Or.inr he)

theorem regGet_regDelete_self (r : List (String × List Nat)) (e : String) :
    regGet (regDelete r e) e = none := by
  rw [regGet_eq_none_iff]
  intro hmem
  rcases List.mem_map.1 hmem with ⟨q, hq, hfst⟩
  rcases List.mem_filter.1 hq with ⟨_, hne⟩
  simp only [decide_eq_true_eq] at hne
  exact hne hfst

theorem regGet_regDelete_ne (r : List (String × List Nat)) {e e' : String}
    (h : e' ≠ e) : regGet (regDelete r e) e' = regGet r e' := by
  induction r with
  | nil => rfl
  | cons q rest ih =>
    by_cases hq : q.1 = e
    · have hne : ¬ q.1 = e' := fun hh => h (hh.symm.trans hq)
      have hd : regDelete (q :: rest) e = regDelete rest e := by
        simp [regDelete, List.filter_cons, hq]
      rw [hd, ih]
      simp [regGet, hne]
    · have hd : regDelete (q :: rest) e = q :: regDelete rest e := by
        simp [regDelete, List.filter_cons, hq]
      rw [hd]
      by_cases hq' : q.1 = e'
      · simp [regGet, hq']
      · simp [regGet, hq', ih]

theorem regSet_self {r : List (String × List Nat)} {e : String}
    {l : List Nat} (h : regGet r e = some l) : regSet r e l = r := by
  induction r with
  | nil => simp [regGet] at h
  | cons q rest ih =>
    by_cases hq : q.1 = e
    · simp only [regGet, if_pos hq] at h
      have hl : l = q.2 := (Option.some.inj h).symm
      subst hl
      subst hq
      simp [regSet]
    · simp only [regGet, if_neg hq] at h
      simp [regSet, hq, ih h]

theorem regGet_mem {r : List (String × List Nat)} {e : String}
    {l : List Nat} (h : regGet r e = some l) : (e, l) ∈ r := by
  induction r with
  | nil => simp [regGet] at h
  | cons q rest ih =>
    by_cases hq : q.1 = e
    · simp only [regGet, if_pos hq] at h
      have hl : l = q.2 := (Option.some.inj h).symm
      subst hl
      subst hq
      exact List.mem_cons_self _ _
    · simp only [regGet, if_neg hq] at h
      exact List.mem_cons_of_mem _ (ih h)

theorem regSet_subset {r : List (String × List Nat)} {e : String}
    {v : List Nat} {q : String × List Nat} (h : q ∈ regSet r e v) :
    q = (e, v) ∨ q ∈ r := by
  induction r with
  | nil => simpa [regSet] using h
  | cons p rest ih =>
    by_cases hp : p.1 = e
    · simp only [regSet, if_pos hp, List.mem_cons] at h
      rcases h with h | h
      · exact Or.inl h
      · exact Or.inr (List.mem_cons_of_mem _ h)
    · simp only [regSet, if_neg hp, List.mem_cons] at h
      rcases h with h | h
      · exact Or.inr (h ▸ List.mem_cons_self _ _)
      · rcases ih h with h' | h'
        · exact Or.inl h'
        · exact Or.inr (List.mem_cons_of_mem _ h')

theorem keys_regSet_mem {r : List (String × List Nat)} {e : String}
    (v : List Nat) (h : e ∈ r.map Prod.fst) :
    (regSet r e v).map Prod.fst = r.map Prod.fst := by
  induction r with
  | nil => simp at h
  | cons q rest ih =>
    by_cases hq : q.1 = e
    · simp [regSet, hq]
    · simp only [List.map_cons, List.mem_cons] at h
      rcases h with h | h
      · exact absurd h.symm hq
      · simp [regSet, hq, ih h]

theorem keys_regSet_none {r : List (String × List Nat)} {e : String}
    (v : List Nat) (h : e ∉ r.map Prod.fst) :
    (regSet r e v).map Prod.fst = r.map Prod.fst ++ [e] := by
  induction r with
  | nil => simp [regSet]
  | cons q rest ih =>
    simp only [List.map_cons, List.mem_cons] at h
    push_neg at h
    have hq : ¬ q.1 = e := fun hh => h.1 hh.symm
    simp [regSet, hq, ih h.2]

theorem RegWF_regSet {r : List (String × List Nat)} {e : String}
    {v : List Nat} (hw : RegWF r) (hv : v ≠ []) (hnd : v.Nodup) :
    RegWF (regSet r e v) := by
  constructor
  · by_cases h : e ∈ r.map Prod.fst
    · rw [keys_regSet_mem v h]
      exact hw.1
    · rw [keys_regSet_none v h]
      refine List.Nodup.append hw.1 (List.nodup_singleton e) ?_
      intro a ha hae
      rw [List.mem_singleton] at hae
      exact h (hae ▸ ha)
  · intro q hq
    rcases regSet_subset hq with rfl | hq'
    · exact ⟨hv, hnd⟩
    · exact hw.2 q hq'

theorem RegWF_regDelete {r : List (String × List Nat)} (e : String)
    (hw : RegWF r) : RegWF (regDelete r e) := by
  constructor
  · exact ((List.filter_sublist r).map Prod.fst).nodup hw.1
  · intro q hq
    exact hw.2 q (List.mem_of_mem_filter hq)

theorem RegWF_get {r : List (String × List Nat)} {e : String} {l : List Nat}
    (hw : RegWF r) (h : regGet r e = some l) : l ≠ [] ∧ l.Nodup :=
  hw.2 (e, l) (regGet_mem h)

/-! ### Lemmas about `off` and its removal loop -/

namespace Emitter

variable {V : Type} [DecidableEq V] [Inhabited V]

@[simp] theorem off_cbs (s : EmitterState V) (e : String) (larg : Option Nat) :
    (off s e larg).cbs = s.cbs := rfl

@[simp] theorem off_meta (s : EmitterState V) (e : String) (larg : Option Nat) :
    (off s e larg).meta = s.meta := rfl

@[simp] theorem off_warned (s : EmitterState V) (e : String) (larg : Option Nat) :
    (off s e larg).warned = s.warned := rfl

@[simp] theorem off_promises (s : EmitterState V) (e : String) (larg : Option Nat) :
    (off s e larg).promises = s.promises := rfl

@[simp] theorem off_pendingConts (s : EmitterState V) (e : String) (larg : Option Nat) :
    (off s e larg).pendingConts = s.pendingConts := rfl

@[simp] theorem off_nextFid (s : EmitterState V) (e : String) (larg : Option Nat) :
    (off s e larg).nextFid = s.nextFid := rfl

@[simp] theorem off_nextPid (s : EmitterState V) (e : String) (larg : Option Nat) :
    (off s e larg).nextPid = s.nextPid := rfl

theorem setRegistry_eta (s : EmitterState V) :
    ({ s with registry := s.registry } : EmitterState V) = s := rfl

theorem offIter_none (s : EmitterState V) (p : List Nat) :
    ∀ cur : List Nat, offIter s none p cur = cur := by
  induction p with
  | nil => intro cur; rfl
  | cons c pend ih =>
    intro cur
    simp only [offIter]
    split
    · split
      · exact ih cur
      · exact ih cur
    · exact ih cur

theorem offIter_not_mem (s : EmitterState V) {a : Nat} (p : List Nat) :
    ∀ cur : List Nat, a ∉ cur → offIter s (some a) p cur = cur := by
  induction p with
  | nil => intro cur _; rfl
  | cons c pend ih =>
    intro cur ha
    simp only [offIter]
    split
    · split
      · show offIter s (some a) pend (cur.erase a) = cur
        rw [List.erase_of_not_mem ha]
        exact ih cur ha
      · exact ih cur ha
    · exact ih cur ha

theorem offIter_mem (s : EmitterState V) {a : Nat} (p : List Nat) :
    ∀ cur : List Nat, cur.Nodup → a ∈ p → a ∈ cur →
      offIter s (some a) p cur = cur.erase a := by
  induction p with
  | nil =>
    intro cur _ hp _
    simp at hp
  | cons c pend ih =>
    intro cur hnd hp ha
    simp only [offIter]
    by_cases hc : c ∈ cur
    · rw [if_pos hc]
      by_cases hs : argStr s (some a) = (s.cbs c).str
      · rw [if_pos hs]
        show offIter s (some a) pend (cur.erase a) = cur.erase a
        exact offIter_not_mem s pend _ hnd.not_mem_erase
      · rw [if_neg hs]
        have hca : c ≠ a := by
          intro hh
          subst hh
          exact hs rfl
        have hap : a ∈ pend := by
          rcases List.mem_cons.1 hp with h1 | h1
          · exact absurd h1.symm hca
          · exact h1
        exact ih cur hnd hap ha
    · rw [if_neg hc]
      have hca : c ≠ a := fun hh => hc (hh ▸ ha)
      have hap : a ∈ pend := by
        rcases List.mem_cons.1 hp with h1 | h1
        · exact absurd h1.symm hca
        · exact h1
      exact ih cur hnd hap ha

theorem offIter_cases (s : EmitterState V) {a : Nat} (p : List Nat) :
    ∀ cur : List Nat, cur.Nodup →
      offIter s (some a) p cur = cur ∨
      offIter s (some a) p cur = cur.erase a := by
  induction p with
  | nil => intro cur _; exact Or.inl rfl
  | cons c pend ih =>
    intro cur hnd
    simp only [offIter]
    by_cases hc : c ∈ cur
    · rw [if_pos hc]
      by_cases hs : argStr s (some a) = (s.cbs c).str
      · rw [if_pos hs]
        by_cases ha : a ∈ cur
        · right
          show offIter s (some a) pend (cur.erase a) = cur.erase a
          exact offIter_not_mem s pend _ hnd.not_mem_erase
        · have hre : cur.erase a = cur := List.erase_of_not_mem ha
          left
          show offIter s (some a) pend (cur.erase a) = cur
          rw [hre]
          rcases ih cur hnd with h1 | h1
          · exact h1
          · rw [h1, hre]
      · rw [if_neg hs]
        exact ih cur hnd
    · rw [if_neg hc]
      exact ih cur hnd

theorem off_get_none (s : EmitterState V) (e : String) (larg : Option Nat)
    (h : regGet s.registry e = none) : off s e larg = s := by
  show { s with registry := offRegistry s e larg } = s
  have hr : offRegistry s e larg = s.registry := by
    simp [offRegistry, h]
  rw [hr]

theorem off_arg_none (s : EmitterState V) (e : String)
    (hw : RegWF s.registry) : off s e none = s := by
  show { s with registry := offRegistry s e none } = s
  cases hr : regGet s.registry e with
  | none => simp [offRegistry, hr]
  | some l =>
    obtain ⟨hne, _⟩ := RegWF_get hw hr
    have hlen : 0 < l.length := List.length_pos.2 hne
    have hreg : offRegistry s e none = s.registry := by
      simp only [offRegistry, hr, offIter_none]
      rw [if_pos hlen]
      exact regSet_self hr
    rw [hreg]

theorem off_not_mem (s : EmitterState V) {e : String} {l : List Nat} {a : Nat}
    (hw : RegWF s.registry) (h : regGet s.registry e = some l)
    (ha : a ∉ l) : off s e (some a) = s := by
  show { s with registry := offRegistry s e (some a) } = s
  obtain ⟨hne, _⟩ := RegWF_get hw h
  have hlen : 0 < l.length := List.length_pos.2 hne
  have hreg : offRegistry s e (some a) = s.registry := by
    simp only [offRegistry, h, offIter_not_mem s l l ha]
    rw [if_pos hlen]
    exact regSet_self h
  rw [hreg]

theorem off_registry_mem (s : EmitterState V) {e : String} {l : List Nat}
    {a : Nat} (h : regGet s.registry e = some l) (hnd : l.Nodup) (ha : a ∈ l) :
    (off s e (some a)).registry =
      if 0 < (l.erase a).length then regSet s.registry e (l.erase a)
      else regDelete s.registry e := by
  show offRegistry s e (some a) = _
  simp only [offRegistry, h, offIter_mem s l l hnd ha ha]

theorem off_regGetD_mem (s : EmitterState V) {e : String} {l : List Nat}
    {a : Nat} (h : regGet s.registry e = some l) (hnd : l.Nodup) (ha : a ∈ l) :
    regGetD (off s e (some a)) e = l.erase a := by
  unfold regGetD
  rw [off_registry_mem s h hnd ha]
  by_cases hl : 0 < (l.erase a).length
  · rw [if_pos hl, regGet_regSet_self]
    rfl
  · rw [if_neg hl, regGet_regDelete_self]
    have : (l.erase a).length = 0 := Nat.eq_zero_of_not_pos hl
    rw [List.length_eq_zero.1 this]
    rfl

theorem off_regGet_ne (s : EmitterState V) {e e' : String} (hne : e' ≠ e)
    (larg : Option Nat) :
    regGet (off s e larg).registry e' = regGet s.registry e' := by
  show regGet (offRegistry s e larg) e' = _
  unfold offRegistry
  cases hr : regGet s.registry e
  · rfl
  · dsimp only
    split
    · exact regGet_regSet_ne _ _ hne
    · exact regGet_regDelete_ne _ hne

theorem RegWF_off (s : EmitterState V) (e : String) (larg : Option Nat)
    (hw : RegWF s.registry) : RegWF (off s e larg).registry := by
  show RegWF (offRegistry s e larg)
  cases hr : regGet s.registry e with
  | none => simpa [offRegistry, hr] using hw
  | some l =>
    obtain ⟨hne, hnd⟩ := RegWF_get hw hr
    simp only [offRegistry, hr]
    cases larg with
    | none =>
      rw [offIter_none]
      rw [if_pos (List.length_pos.2 hne)]
      exact RegWF_regSet hw hne hnd
    | some a =>
      rcases offIter_cases s l l hnd with hcase | hcase
      · rw [hcase, if_pos (List.length_pos.2 hne)]
        exact RegWF_regSet hw hne hnd
      · rw [hcase]
        split
        · exact RegWF_regSet hw (List.length_pos.1 (by assumption)) (hnd.erase a)
        · exact RegWF_regDelete e hw

end Emitter

/-! ### Step lemmas for the dispatch loop -/

namespace Emitter

variable {V : Type} [DecidableEq V] [Inhabited V]

@[simp] theorem setListened_cbs (s : EmitterState V) (c : Nat) :
    (setListened s c).cbs = s.cbs := rfl

@[simp] theorem setListened_registry (s : EmitterState V) (c : Nat) :
    (setListened s c).registry = s.registry := rfl

@[simp] theorem setListened_warned (s : EmitterState V) (c : Nat) :
    (setListened s c).warned = s.warned := rfl

@[simp] theorem setListened_promises (s : EmitterState V) (c : Nat) :
    (setListened s c).promises = s.promises := rfl

@[simp] theorem setListened_pendingConts (s : EmitterState V) (c : Nat) :
    (setListened s c).pendingConts = s.pendingConts := rfl

@[simp] theorem setListened_nextFid (s : EmitterState V) (c : Nat) :
    (setListened s c).nextFid = s.nextFid := rfl

@[simp] theorem setListened_nextPid (s : EmitterState V) (c : Nat) :
    (setListened s c).nextPid = s.nextPid := rfl

theorem setListened_suspended (s : EmitterState V) (c x : Nat) :
    ((setListened s c).meta x).suspended = (s.meta x).suspended := by
  by_cases h : x = c
  · subst h
    simp [setListened, updf]
  · simp [setListened, updf, h]

theorem setListened_once (s : EmitterState V) (c x : Nat) :
    ((setListened s c).meta x).once = (s.meta x).once := by
  by_cases h : x = c
  · subst h
    simp [setListened, updf]
  · simp [setListened, updf, h]

@[simp] theorem resolveProm_cbs (s : EmitterState V) (pid : Nat) (args : List V) :
    (resolveProm s pid args).cbs = s.cbs := by
  unfold resolveProm
  split <;> rfl

@[simp] theorem resolveProm_registry (s : EmitterState V) (pid : Nat) (args : List V) :
    (resolveProm s pid args).registry = s.registry := by
  unfold resolveProm
  split <;> rfl

@[simp] theorem resolveProm_meta (s : EmitterState V) (pid : Nat) (args : List V) :
    (resolveProm s pid args).meta = s.meta := by
  unfold resolveProm
  split <;> rfl

@[simp] theorem resolveProm_warned (s : EmitterState V) (pid : Nat) (args : List V) :
    (resolveProm s pid args).warned = s.warned := by
  unfold resolveProm
  split <;> rfl

@[simp] theorem resolveProm_pendingConts (s : EmitterState V) (pid : Nat) (args : List V) :
    (resolveProm s pid args).pendingConts = s.pendingConts := by
  unfold resolveProm
  split <;> rfl

@[simp] theorem resolveProm_nextFid (s : EmitterState V) (pid : Nat) (args : List V) :
    (resolveProm s pid args).nextFid = s.nextFid := by
  unfold resolveProm
  split <;> rfl

@[simp] theorem resolveProm_nextPid (s : EmitterState V) (pid : Nat) (args : List V) :
    (resolveProm s pid args).nextPid = s.nextPid := by
  unfold resolveProm
  split <;> rfl

theorem resolveProm_promises_resolved {s : EmitterState V} {q : Nat} {a : List V}
    (pid : Nat) (args : List V) (h : s.promises q = .resolved a) :
    (resolveProm s pid args).promises q = .resolved a := by
  unfold resolveProm
  cases hp : s.promises pid with
  | pending =>
    show updf s.promises pid (.resolved args) q = _
    by_cases hq : q = pid
    · subst hq
      rw [h] at hp
      cases hp
    · rw [updf_ne _ _ hq]
      exact h
  | unalloc => exact h
  | resolved b => exact h
  | rejected => exact h

@[simp] theorem invokeCb_cbs (s : EmitterState V) (c : Nat) (args : List V) :
    (invokeCb s c args).1.cbs = s.cbs := by
  unfold invokeCb
  cases hb : (s.cbs c).body with
  | ret f => rfl
  | resolver pid => exact resolveProm_cbs s pid args

@[simp] theorem invokeCb_registry (s : EmitterState V) (c : Nat) (args : List V) :
    (invokeCb s c args).1.registry = s.registry := by
  unfold invokeCb
  cases hb : (s.cbs c).body with
  | ret f => rfl
  | resolver pid => exact resolveProm_registry s pid args

@[simp] theorem invokeCb_meta (s : EmitterState V) (c : Nat) (args : List V) :
    (invokeCb s c args).1.meta = s.meta := by
  unfold invokeCb
  cases hb : (s.cbs c).body with
  | ret f => rfl
  | resolver pid => exact resolveProm_meta s pid args

@[simp] theorem invokeCb_warned (s : EmitterState V) (c : Nat) (args : List V) :
    (invokeCb s c args).1.warned = s.warned := by
  unfold invokeCb
  cases hb : (s.cbs c).body with
  | ret f => rfl
  | resolver pid => exact resolveProm_warned s pid args

@[simp] theorem invokeCb_pendingConts (s : EmitterState V) (c : Nat) (args : List V) :
    (invokeCb s c args).1.pendingConts = s.pendingConts := by
  unfold invokeCb
  cases hb : (s.cbs c).body with
  | ret f => rfl
  | resolver pid => exact resolveProm_pendingConts s pid args

@[simp] theorem invokeCb_nextFid (s : EmitterState V) (c : Nat) (args : List V) :
    (invokeCb s c args).1.nextFid = s.nextFid := by
  unfold invokeCb
  cases hb : (s.cbs c).body with
  | ret f => rfl
  | resolver pid => exact resolveProm_nextFid s pid args

@[simp] theorem invokeCb_nextPid (s : EmitterState V) (c : Nat) (args : List V) :
    (invokeCb s c args).1.nextPid = s.nextPid := by
  unfold invokeCb
  cases hb : (s.cbs c).body with
  | ret f => rfl
  | resolver pid => exact resolveProm_nextPid s pid args

theorem invokeCb_promises_resolved {s : EmitterState V} {q : Nat} {a : List V}
    (c : Nat) (args : List V) (h : s.promises q = .resolved a) :
    (invokeCb s c args).1.promises q = .resolved a := by
  unfold invokeCb
  cases hb : (s.cbs c).body with
  | ret f => exact h
  | resolver pid => exact resolveProm_promises_resolved pid args h

theorem invokeCb_snd_imm {s : EmitterState V} {c : Nat} {args : List V} {v : V}
    (h : immRet s.cbs args c = some v) : (invokeCb s c args).2 = .imm v := by
  unfold immRet at h
  unfold invokeCb
  cases hb : (s.cbs c).body with
  | ret f =>
    rw [hb] at h
    dsimp only at h
    show f args = .imm v
    cases hf : f args with
    | imm w =>
      rw [hf] at h
      dsimp only at h
      injection h with h2
      subst h2
      rfl
    | prom w =>
      rw [hf] at h
      dsimp only at h
      cases h
  | resolver pid =>
    rw [hb] at h
    dsimp only at h
    injection h with h2
    subst h2
    rfl

theorem invokeCb_snd_prom {s : EmitterState V} {c : Nat} {args : List V}
    (h : immRet s.cbs args c = none) : ∃ w, (invokeCb s c args).2 = .prom w := by
  unfold immRet at h
  unfold invokeCb
  cases hb : (s.cbs c).body with
  | ret f =>
    rw [hb] at h
    dsimp only at h
    cases hf : f args with
    | imm w =>
      rw [hf] at h
      dsimp only at h
      cases h
    | prom w =>
      refine ⟨w, ?_⟩
      show f args = .prom w
      exact hf
  | resolver pid =>
    rw [hb] at h
    dsimp only at h
    cases h

end Emitter

namespace Emitter

variable {V : Type} [DecidableEq V] [Inhabited V]

theorem emitLoop_cons_skip {s : EmitterState V} {e : String} {args : List V}
    {c : Nat} {rest : List Nat} {res : List V} {tr : List (Nat × List V)}
    (hc : c ∉ regGetD s e) :
    emitLoop e args (c :: rest) s res tr = emitLoop e args rest s res tr := by
  simp only [emitLoop]
  rw [if_neg hc]

theorem emitLoop_cons_susp {s : EmitterState V} {e : String} {args : List V}
    {c : Nat} {rest : List Nat} {res : List V} {tr : List (Nat × List V)}
    (hc : c ∈ regGetD s e) (hs : (s.meta c).suspended = true) :
    emitLoop e args (c :: rest) s res tr = emitLoop e args rest s res tr := by
  simp only [emitLoop]
  rw [if_pos hc, if_pos hs]

theorem emitLoop_cons_imm {s : EmitterState V} {e : String} {args : List V}
    {c : Nat} {rest : List Nat} {res : List V} {tr : List (Nat × List V)} {v : V}
    (hc : c ∈ regGetD s e) (hs : (s.meta c).suspended = false)
    (him : immRet s.cbs args c = some v) :
    emitLoop e args (c :: rest) s res tr =
      emitLoop e args rest
        (if ((setListened (invokeCb s c args).1 c).meta c).once = some true
         then off (setListened (invokeCb s c args).1 c) e (some c)
         else setListened (invokeCb s c args).1 c)
        (setAddV res v) (tr ++ [(c, args)]) := by
  simp only [emitLoop]
  rw [if_pos hc, if_neg (by rw [hs]; exact Bool.false_ne_true)]
  rw [invokeCb_snd_imm him]

theorem emitLoop_cons_prom {s : EmitterState V} {e : String} {args : List V}
    {c : Nat} {rest : List Nat} {res : List V} {tr : List (Nat × List V)} {w : V}
    (hc : c ∈ regGetD s e) (hs : (s.meta c).suspended = false)
    (hw2 : (invokeCb s c args).2 = .prom w) :
    emitLoop e args (c :: rest) s res tr =
      emitLoop e args rest
        { (invokeCb s c args).1 with
            pendingConts := (invokeCb s c args).1.pendingConts ++ [(e, c, w)] }
        res (tr ++ [(c, args)]) := by
  simp only [emitLoop]
  rw [if_pos hc, if_neg (by rw [hs]; exact Bool.false_ne_true)]
  rw [hw2]

end Emitter

namespace Emitter

variable {V : Type} [DecidableEq V] [Inhabited V]

/-- Characterization of the dispatch loop on a well-formed state when
every pending listener is still in the live collection: the trace lists
exactly the non-suspended pending listeners in order, the result set
folds their immediate return values, state components other than the
registry, `listened` flags, promises and continuations are untouched,
only already-present listeners remain registered, other event names are
untouched, invoked `once` listeners with immediate results are removed,
and settled promises stay settled. -/
theorem emitLoop_run (e : String) (args : List V) :
    ∀ (p : List Nat) (s : EmitterState V) (res : List V) (tr : List (Nat × List V)),
      RegWF s.registry → (∀ c ∈ p, c ∈ regGetD s e) → p.Nodup →
      RegWF (emitLoop e args p s res tr).state.registry ∧
      (emitLoop e args p s res tr).trace =
        tr ++ (p.filter (fun c => !(s.meta c).suspended)).map (fun c => (c, args)) ∧
      (emitLoop e args p s res tr).results =
        ((p.filter (fun c => !(s.meta c).suspended)).filterMap
          (immRet s.cbs args)).foldl setAddV res ∧
      (emitLoop e args p s res tr).state.cbs = s.cbs ∧
      (∀ x, ((emitLoop e args p s res tr).state.meta x).suspended = (s.meta x).suspended ∧
            ((emitLoop e args p s res tr).state.meta x).once = (s.meta x).once) ∧
      (emitLoop e args p s res tr).state.warned = s.warned ∧
      (emitLoop e args p s res tr).state.nextFid = s.nextFid ∧
      (emitLoop e args p s res tr).state.nextPid = s.nextPid ∧
      (∀ x, x ∈ regGetD (emitLoop e args p s res tr).state e → x ∈ regGetD s e) ∧
      (∀ e', e' ≠ e →
        regGet (emitLoop e args p s res tr).state.registry e' = regGet s.registry e') ∧
      (∀ c ∈ p, (s.meta c).suspended = false → (immRet s.cbs args c).isSome →
        (s.meta c).once = some true →
        c ∉ regGetD (emitLoop e args p s res tr).state e) ∧
      (∀ q a, s.promises q = .resolved a →
        (emitLoop e args p s res tr).state.promises q = .resolved a) := by
  intro p
  induction p with
  | nil =>
    intro s res tr hw hp hnd
    refine ⟨hw, by simp [emitLoop], by simp [emitLoop], rfl, fun x => ⟨rfl, rfl⟩,
      rfl, rfl, rfl, fun x hx => hx, fun e' _ => rfl,
      fun c hc => absurd hc (List.not_mem_nil c), fun q a h => h⟩
  | cons c rest ih =>
    intro s res tr hw hp hnd
    have hcmem : c ∈ regGetD s e := hp c (List.mem_cons_self c rest)
    have hcur : regGet s.registry e = some (regGetD s e) := by
      unfold regGetD at hcmem ⊢
      cases hr : regGet s.registry e with
      | none =>
        rw [hr] at hcmem
        simp at hcmem
      | some l => rfl
    obtain ⟨hcne, hcnd⟩ := RegWF_get hw hcur
    have hcrest : c ∉ rest := (List.nodup_cons.1 hnd).1
    have hndrest : rest.Nodup := (List.nodup_cons.1 hnd).2
    by_cases hsusp : (s.meta c).suspended = true
    · rw [emitLoop_cons_susp hcmem hsusp]
      have hfc : ¬ ((fun x => !(s.meta x).suspended) c = true) := by
        show ¬ (!(s.meta c).suspended) = true
        rw [hsusp]
        simp
      obtain ⟨w1, w2, w3, w4, w5, w6, w7, w8, w9, w10, w11, w12⟩ :=
        ih s res tr hw (fun x hx => hp x (List.mem_cons_of_mem c hx)) hndrest
      have hfil : List.filter (fun x => !(s.meta x).suspended) (c :: rest) =
          List.filter (fun x => !(s.meta x).suspended) rest :=
        List.filter_cons_of_neg hfc
      refine ⟨w1, ?_, ?_, w4, w5, w6, w7, w8, w9, w10, ?_, w12⟩
      · rw [w2, hfil]
      · rw [w3, hfil]
      · intro x hx hxs hxi hxo
        rcases List.mem_cons.1 hx with rfl | hx'
        · rw [hxs] at hsusp
          cases hsusp
        · exact w11 x hx' hxs hxi hxo
    · have hsf : (s.meta c).suspended = false := by
        cases hb : (s.meta c).suspended
        · rfl
        · exact absurd hb hsusp
      have hfc : ((fun x => !(s.meta x).suspended) c) = true := by
        show (!(s.meta c).suspended) = true
        rw [hsf]
        rfl
      have hfil : List.filter (fun x => !(s.meta x).suspended) (c :: rest) =
          c :: List.filter (fun x => !(s.meta x).suspended) rest :=
        List.filter_cons_of_pos hfc
      cases him : immRet s.cbs args c with
      | some v =>
        rw [emitLoop_cons_imm hcmem hsf him]
        have hreg2 : (setListened (invokeCb s c args).1 c).registry = s.registry := by
          rw [setListened_registry, invokeCb_registry]
        have hsusp2 : ∀ x,
            ((setListened (invokeCb s c args).1 c).meta x).suspended =
              (s.meta x).suspended := by
          intro x
          rw [setListened_suspended, invokeCb_meta]
        have honce2 : ∀ x,
            ((setListened (invokeCb s c args).1 c).meta x).once =
              (s.meta x).once := by
          intro x
          rw [setListened_once, invokeCb_meta]
        have hcbs2 : (setListened (invokeCb s c args).1 c).cbs = s.cbs := by
          rw [setListened_cbs, invokeCb_cbs]
        have hprom2 : ∀ q a, s.promises q = .resolved a →
            (setListened (invokeCb s c args).1 c).promises q = .resolved a := by
          intro q a hq
          rw [setListened_promises]
          exact invokeCb_promises_resolved c args hq
        by_cases honce : (s.meta c).once = some true
        · have hct : ((setListened (invokeCb s c args).1 c).meta c).once = some true :=
            (honce2 c).trans honce
          rw [if_pos hct]
          have hcur2 : regGet (setListened (invokeCb s c args).1 c).registry e =
              some (regGetD s e) := by
            rw [hreg2]
            exact hcur
          have h3reg : regGetD (off (setListened (invokeCb s c args).1 c) e (some c)) e =
              (regGetD s e).erase c :=
            off_regGetD_mem _ hcur2 hcnd hcmem
          have h3wf : RegWF (off (setListened (invokeCb s c args).1 c) e (some c)).registry := by
            refine RegWF_off _ e (some c) ?_
            rw [hreg2]
            exact hw
          have hsub : ∀ x ∈ rest,
              x ∈ regGetD (off (setListened (invokeCb s c args).1 c) e (some c)) e := by
            intro x hx
            rw [h3reg]
            refine (List.mem_erase_of_ne ?_).2 (hp x (List.mem_cons_of_mem c hx))
            intro hxc
            rw [hxc] at hx
            exact hcrest hx
          obtain ⟨w1, w2, w3, w4, w5, w6, w7, w8, w9, w10, w11, w12⟩ :=
            ih (off (setListened (invokeCb s c args).1 c) e (some c))
              (setAddV res v) (tr ++ [(c, args)]) h3wf hsub hndrest
          have h3cbs : (off (setListened (invokeCb s c args).1 c) e (some c)).cbs = s.cbs := by
            rw [off_cbs]
            exact hcbs2
          have h3susp : ∀ x,
              ((off (setListened (invokeCb s c args).1 c) e (some c)).meta x).suspended =
                (s.meta x).suspended := by
            intro x
            rw [off_meta]
            exact hsusp2 x
          have h3once : ∀ x,
              ((off (setListened (invokeCb s c args).1 c) e (some c)).meta x).once =
                (s.meta x).once := by
            intro x
            rw [off_meta]
            exact honce2 x
          have h3warned : (off (setListened (invokeCb s c args).1 c) e (some c)).warned =
              s.warned := by
            rw [off_warned, setListened_warned, invokeCb_warned]
          have h3nf : (off (setListened (invokeCb s c args).1 c) e (some c)).nextFid =
              s.nextFid := by
            rw [off_nextFid, setListened_nextFid, invokeCb_nextFid]
          have h3np : (off (setListened (invokeCb s c args).1 c) e (some c)).nextPid =
              s.nextPid := by
            rw [off_nextPid, setListened_nextPid, invokeCb_nextPid]
          have h3prom : ∀ q a, s.promises q = .resolved a →
              (off (setListened (invokeCb s c args).1 c) e (some c)).promises q =
                .resolved a := by
            intro q a hq
            rw [off_promises]
            exact hprom2 q a hq
          have hrf : rest.filter
                (fun x => !((off (setListened (invokeCb s c args).1 c) e (some c)).meta x).suspended) =
              rest.filter (fun x => !(s.meta x).suspended) :=
            List.filter_congr (fun x _ => by rw [h3susp x])
          refine ⟨w1, ?_, ?_, w4.trans h3cbs,
            fun x => ⟨((w5 x).1).trans (h3susp x), ((w5 x).2).trans (h3once x)⟩,
            w6.trans h3warned, w7.trans h3nf, w8.trans h3np, ?_, ?_, ?_,
            fun q a hq => w12 q a (h3prom q a hq)⟩
          · rw [w2, hrf, hfil, List.map_cons]
            simp
          · rw [w3, hrf, h3cbs, hfil,
              List.filterMap_cons_some him, List.foldl_cons]
          · intro x hx
            have hh := w9 x hx
            rw [h3reg] at hh
            exact List.mem_of_mem_erase hh
          · intro e' he'
            rw [w10 e' he', off_regGet_ne _ he' (some c), hreg2]
          · intro x hx hxs hxi hxo
            rcases List.mem_cons.1 hx with rfl | hx'
            · intro hmem'
              have hh := w9 x hmem'
              rw [h3reg] at hh
              exact hcnd.not_mem_erase hh
            · refine w11 x hx' ((h3susp x).trans hxs) ?_ ((h3once x).trans hxo)
              rw [h3cbs]
              exact hxi
        · have hct : ¬ ((setListened (invokeCb s c args).1 c).meta c).once = some true := by
            rw [honce2 c]
            exact honce
          rw [if_neg hct]
          have h2reg : regGetD (setListened (invokeCb s c args).1 c) e = regGetD s e := by
            unfold regGetD
            rw [hreg2]
          have h2wf : RegWF (setListened (invokeCb s c args).1 c).registry := by
            rw [hreg2]
            exact hw
          have hsub : ∀ x ∈ rest, x ∈ regGetD (setListened (invokeCb s c args).1 c) e := by
            intro x hx
            rw [h2reg]
            exact hp x (List.mem_cons_of_mem c hx)
          obtain ⟨w1, w2, w3, w4, w5, w6, w7, w8, w9, w10, w11, w12⟩ :=
            ih (setListened (invokeCb s c args).1 c)
              (setAddV res v) (tr ++ [(c, args)]) h2wf hsub hndrest
          have h2warned : (setListened (invokeCb s c args).1 c).warned = s.warned := by
            rw [setListened_warned, invokeCb_warned]
          have h2nf : (setListened (invokeCb s c args).1 c).nextFid = s.nextFid := by
            rw [setListened_nextFid, invokeCb_nextFid]
          have h2np : (setListened (invokeCb s c args).1 c).nextPid = s.nextPid := by
            rw [setListened_nextPid, invokeCb_nextPid]
          have hrf : rest.filter
                (fun x => !((setListened (invokeCb s c args).1 c).meta x).suspended) =
              rest.filter (fun x => !(s.meta x).suspended) :=
            List.filter_congr (fun x _ => by rw [hsusp2 x])
          refine ⟨w1, ?_, ?_, w4.trans hcbs2,
            fun x => ⟨((w5 x).1).trans (hsusp2 x), ((w5 x).2).trans (honce2 x)⟩,
            w6.trans h2warned, w7.trans h2nf, w8.trans h2np, ?_, ?_, ?_,
            fun q a hq => w12 q a (hprom2 q a hq)⟩
          · rw [w2, hrf, hfil, List.map_cons]
            simp
          · rw [w3, hrf, hcbs2, hfil,
              List.filterMap_cons_some him, List.foldl_cons]
          · intro x hx
            have hh := w9 x hx
            rw [h2reg] at hh
            exact hh
          · intro e' he'
            rw [w10 e' he']
            rw [hreg2]
          · intro x hx hxs hxi hxo
            rcases List.mem_cons.1 hx with rfl | hx'
            · exact absurd hxo honce
            · refine w11 x hx' ((hsusp2 x).trans hxs) ?_ ((honce2 x).trans hxo)
              rw [hcbs2]
              exact hxi
      | none =>
        obtain ⟨w0, hw2⟩ := invokeCb_snd_prom him
        rw [emitLoop_cons_prom hcmem hsf hw2]
        have h4reg : ({ (invokeCb s c args).1 with
            pendingConts := (invokeCb s c args).1.pendingConts ++ [(e, c, w0)] } :
              EmitterState V).registry = s.registry := invokeCb_registry s c args
        have h4meta : ({ (invokeCb s c args).1 with
            pendingConts := (invokeCb s c args).1.pendingConts ++ [(e, c, w0)] } :
              EmitterState V).meta = s.meta := invokeCb_meta s c args
        have h4cbs : ({ (invokeCb s c args).1 with
            pendingConts := (invokeCb s c args).1.pendingConts ++ [(e, c, w0)] } :
              EmitterState V).cbs = s.cbs := invokeCb_cbs s c args
        have h4getD : regGetD ({ (invokeCb s c args).1 with
            pendingConts := (invokeCb s c args).1.pendingConts ++ [(e, c, w0)] } :
              EmitterState V) e = regGetD s e := by
          unfold regGetD
          rw [h4reg]
        have h4wf : RegWF ({ (invokeCb s c args).1 with
            pendingConts := (invokeCb s c args).1.pendingConts ++ [(e, c, w0)] } :
              EmitterState V).registry := by
          rw [h4reg]
          exact hw
        have hsub : ∀ x ∈ rest, x ∈ regGetD ({ (invokeCb s c args).1 with
            pendingConts := (invokeCb s c args).1.pendingConts ++ [(e, c, w0)] } :
              EmitterState V) e := by
          intro x hx
          rw [h4getD]
          exact hp x (List.mem_cons_of_mem c hx)
        obtain ⟨w1, w2, w3, w4, w5, w6, w7, w8, w9, w10, w11, w12⟩ :=
          ih ({ (invokeCb s c args).1 with
            pendingConts := (invokeCb s c args).1.pendingConts ++ [(e, c, w0)] })
            res (tr ++ [(c, args)]) h4wf hsub hndrest
        refine ⟨w1, ?_, ?_, w4.trans h4cbs,
          fun x => ⟨((w5 x).1).trans (by rw [h4meta]), ((w5 x).2).trans (by rw [h4meta])⟩,
          w6.trans (invokeCb_warned s c args), w7.trans (invokeCb_nextFid s c args),
          w8.trans (invokeCb_nextPid s c args), ?_, ?_, ?_,
          fun q a hq => w12 q a (invokeCb_promises_resolved c args hq)⟩
        · rw [w2, h4meta, hfil, List.map_cons]
          simp
        · rw [w3, h4meta, h4cbs, hfil,
            List.filterMap_cons_none him]
        · intro x hx
          have hh := w9 x hx
          rw [h4getD] at hh
          exact hh
        · intro e' he'
          rw [w10 e' he']
          rw [h4reg]
        · intro x hx hxs hxi hxo
          rcases List.mem_cons.1 hx with rfl | hx'
          · rw [him] at hxi
            simp at hxi
          · refine w11 x hx' (by rw [h4meta]; exact hxs) ?_ (by rw [h4meta]; exact hxo)
            rw [h4cbs]
            exact hxi

theorem resolveProm_self {s : EmitterState V} {pid : Nat} (args : List V)
    (h : s.promises pid = .pending) :
    (resolveProm s pid args).promises pid = .resolved args := by
  unfold resolveProm
  rw [h]
  exact updf_self _ _ _

theorem invokeCb_resolver_self {s : EmitterState V} {c pid : Nat} (args : List V)
    (hb : (s.cbs c).body = .resolver pid) (h : s.promises pid = .pending) :
    (invokeCb s c args).1.promises pid = .resolved args := by
  unfold invokeCb
  rw [hb]
  exact resolveProm_self args h

theorem resolveProm_promises_at (s : EmitterState V) (pid2 : Nat) (args : List V)
    (pid : Nat) :
    (resolveProm s pid2 args).promises pid = s.promises pid ∨
    (resolveProm s pid2 args).promises pid = .resolved args := by
  cases hp2 : s.promises pid2 with
  | pending =>
    have hr : resolveProm s pid2 args =
        { s with promises := updf s.promises pid2 (.resolved args) } := by
      unfold resolveProm
      rw [hp2]
    rw [hr]
    by_cases hq : pid = pid2
    · subst hq
      exact Or.inr (updf_self _ _ _)
    · exact Or.inl (updf_ne _ _ hq)
  | unalloc =>
    have hr : resolveProm s pid2 args = s := by
      unfold resolveProm
      rw [hp2]
    rw [hr]
    exact Or.inl rfl
  | resolved b =>
    have hr : resolveProm s pid2 args = s := by
      unfold resolveProm
      rw [hp2]
    rw [hr]
    exact Or.inl rfl
  | rejected =>
    have hr : resolveProm s pid2 args = s := by
      unfold resolveProm
      rw [hp2]
    rw [hr]
    exact Or.inl rfl

theorem invokeCb_promises_at (s : EmitterState V) (c : Nat) (args : List V)
    (pid : Nat) :
    (invokeCb s c args).1.promises pid = s.promises pid ∨
    (invokeCb s c args).1.promises pid = .resolved args := by
  unfold invokeCb
  cases hb : (s.cbs c).body with
  | ret f => exact Or.inl rfl
  | resolver pid2 => exact resolveProm_promises_at s pid2 args pid

/-- A settled promise stays settled through the whole dispatch loop. -/
theorem emitLoop_promises_stable (e : String) (args : List V) :
    ∀ (p : List Nat) (s : EmitterState V) (res : List V) (tr : List (Nat × List V))
      (q : Nat) (a : List V), s.promises q = .resolved a →
      (emitLoop e args p s res tr).state.promises q = .resolved a := by
  intro p
  induction p with
  | nil =>
    intro s res tr q a h
    simp only [emitLoop]
    exact h
  | cons c rest ih =>
    intro s res tr q a h
    by_cases hc : c ∈ regGetD s e
    · by_cases hsusp : (s.meta c).suspended = true
      · rw [emitLoop_cons_susp hc hsusp]
        exact ih s res tr q a h
      · have hsf : (s.meta c).suspended = false := by
          cases hb2 : (s.meta c).suspended
          · rfl
          · exact absurd hb2 hsusp
        cases him : immRet s.cbs args c with
        | some v =>
          rw [emitLoop_cons_imm hc hsf him]
          apply ih
          have hset : (setListened (invokeCb s c args).1 c).promises q = .resolved a := by
            rw [setListened_promises]
            exact invokeCb_promises_resolved c args h
          split
          · rw [off_promises]
            exact hset
          · exact hset
        | none =>
          obtain ⟨w0, hw2⟩ := invokeCb_snd_prom him
          rw [emitLoop_cons_prom hc hsf hw2]
          apply ih
          exact invokeCb_promises_resolved c args h
    · rw [emitLoop_cons_skip hc]
      exact ih s res tr q a h

end Emitter

namespace Emitter

variable {V : Type} [DecidableEq V] [Inhabited V]

/-- If a pending promise has a non-suspended resolver callback among the
pending listeners of the dispatch loop, the loop resolves that promise
with the emitted arguments. -/
theorem emitLoop_resolves (e : String) (args : List V) :
    ∀ (p : List Nat) (s : EmitterState V) (res : List V) (tr : List (Nat × List V)),
      RegWF s.registry → (∀ c ∈ p, c ∈ regGetD s e) → p.Nodup →
      ∀ (pid c0 : Nat), c0 ∈ p → (s.meta c0).suspended = false →
        (s.cbs c0).body = .resolver pid → s.promises pid = .pending →
        (emitLoop e args p s res tr).state.promises pid = .resolved args := by
  intro p
  induction p with
  | nil =>
    intro s res tr _ _ _ pid c0 hc0 _ _ _
    exact absurd hc0 (List.not_mem_nil c0)
  | cons c rest ih =>
    intro s res tr hw hp hnd pid c0 hc0 hs0 hb0 hpend
    have hcmem : c ∈ regGetD s e := hp c (List.mem_cons_self c rest)
    have hcur : regGet s.registry e = some (regGetD s e) := by
      unfold regGetD at hcmem ⊢
      cases hr : regGet s.registry e with
      | none =>
        rw [hr] at hcmem
        simp at hcmem
      | some l => rfl
    obtain ⟨hcne, hcnd⟩ := RegWF_get hw hcur
    have hcrest : c ∉ rest := (List.nodup_cons.1 hnd).1
    have hndrest : rest.Nodup := (List.nodup_cons.1 hnd).2
    by_cases hsusp : (s.meta c).suspended = true
    · rw [emitLoop_cons_susp hcmem hsusp]
      have hcc0 : c ≠ c0 := by
        intro hcc
        rw [hcc, hs0] at hsusp
        cases hsusp
      have hc0rest : c0 ∈ rest := by
        rcases List.mem_cons.1 hc0 with h1 | h1
        · exact absurd h1.symm hcc0
        · exact h1
      exact ih s res tr hw (fun x hx => hp x (List.mem_cons_of_mem c hx)) hndrest
        pid c0 hc0rest hs0 hb0 hpend
    · have hsf : (s.meta c).suspended = false := by
        cases hb2 : (s.meta c).suspended
        · rfl
        · exact absurd hb2 hsusp
      cases him : immRet s.cbs args c with
      | some v =>
        rw [emitLoop_cons_imm hcmem hsf him]
        by_cases hcc0 : c = c0
        · subst hcc0
          have hres : ((if ((setListened (invokeCb s c args).1 c).meta c).once = some true
              then off (setListened (invokeCb s c args).1 c) e (some c)
              else setListened (invokeCb s c args).1 c)).promises pid = .resolved args := by
            have hbase : (setListened (invokeCb s c args).1 c).promises pid = .resolved args := by
              rw [setListened_promises]
              exact invokeCb_resolver_self args hb0 hpend
            split
            · rw [off_promises]
              exact hbase
            · exact hbase
          exact emitLoop_promises_stable e args rest _ _ _ pid args hres
        · have hc0rest : c0 ∈ rest := by
            rcases List.mem_cons.1 hc0 with h1 | h1
            · exact absurd h1.symm (fun hh => hcc0 hh)
            · exact h1
          have hreg2 : (setListened (invokeCb s c args).1 c).registry = s.registry := by
            rw [setListened_registry, invokeCb_registry]
          by_cases honce : ((setListened (invokeCb s c args).1 c).meta c).once = some true
          · rw [if_pos honce]
            have hcur2 : regGet (setListened (invokeCb s c args).1 c).registry e =
                some (regGetD s e) := by
              rw [hreg2]
              exact hcur
            have h3reg : regGetD (off (setListened (invokeCb s c args).1 c) e (some c)) e =
                (regGetD s e).erase c :=
              off_regGetD_mem _ hcur2 hcnd hcmem
            have h3wf : RegWF (off (setListened (invokeCb s c args).1 c) e (some c)).registry := by
              refine RegWF_off _ e (some c) ?_
              rw [hreg2]
              exact hw
            have hsub : ∀ x ∈ rest,
                x ∈ regGetD (off (setListened (invokeCb s c args).1 c) e (some c)) e := by
              intro x hx
              rw [h3reg]
              refine (List.mem_erase_of_ne ?_).2 (hp x (List.mem_cons_of_mem c hx))
              intro hxc
              rw [hxc] at hx
              exact hcrest hx
            have h3s0 : ((off (setListened (invokeCb s c args).1 c) e (some c)).meta c0).suspended =
                false := by
              rw [off_meta, setListened_suspended, invokeCb_meta]
              exact hs0
            have h3b0 : ((off (setListened (invokeCb s c args).1 c) e (some c)).cbs c0).body =
                .resolver pid := by
              rw [off_cbs, setListened_cbs, invokeCb_cbs]
              exact hb0
            rcases invokeCb_promises_at s c args pid with hcase | hcase
            · have h3p : (off (setListened (invokeCb s c args).1 c) e (some c)).promises pid =
                  .pending := by
                rw [off_promises, setListened_promises, hcase]
                exact hpend
              exact ih _ _ _ h3wf hsub hndrest pid c0 hc0rest h3s0 h3b0 h3p
            · have h3p : (off (setListened (invokeCb s c args).1 c) e (some c)).promises pid =
                  .resolved args := by
                rw [off_promises, setListened_promises]
                exact hcase
              exact emitLoop_promises_stable e args rest _ _ _ pid args h3p
          · rw [if_neg honce]
            have h2reg : regGetD (setListened (invokeCb s c args).1 c) e = regGetD s e := by
              unfold regGetD
              rw [hreg2]
            have h2wf : RegWF (setListened (invokeCb s c args).1 c).registry := by
              rw [hreg2]
              exact hw
            have hsub : ∀ x ∈ rest, x ∈ regGetD (setListened (invokeCb s c args).1 c) e := by
              intro x hx
              rw [h2reg]
              exact hp x (List.mem_cons_of_mem c hx)
            have h2s0 : ((setListened (invokeCb s c args).1 c).meta c0).suspended = false := by
              rw [setListened_suspended, invokeCb_meta]
              exact hs0
            have h2b0 : ((setListened (invokeCb s c args).1 c).cbs c0).body = .resolver pid := by
              rw [setListened_cbs, invokeCb_cbs]
              exact hb0
            rcases invokeCb_promises_at s c args pid with hcase | hcase
            · have h2p : (setListened (invokeCb s c args).1 c).promises pid = .pending := by
                rw [setListened_promises, hcase]
                exact hpend
              exact ih _ _ _ h2wf hsub hndrest pid c0 hc0rest h2s0 h2b0 h2p
            · have h2p : (setListened (invokeCb s c args).1 c).promises pid = .resolved args := by
                rw [setListened_promises]
                exact hcase
              exact emitLoop_promises_stable e args rest _ _ _ pid args h2p
      | none =>
        obtain ⟨w0, hw2⟩ := invokeCb_snd_prom him
        rw [emitLoop_cons_prom hcmem hsf hw2]
        have hcc0 : c ≠ c0 := by
          intro hcc
          subst hcc
          unfold immRet at him
          rw [hb0] at him
          cases him
        have hc0rest : c0 ∈ rest := by
          rcases List.mem_cons.1 hc0 with h1 | h1
          · exact absurd h1.symm hcc0
          · exact h1
        have h4reg : ({ (invokeCb s c args).1 with
            pendingConts := (invokeCb s c args).1.pendingConts ++ [(e, c, w0)] } :
              EmitterState V).registry = s.registry := invokeCb_registry s c args
        have h4getD : regGetD ({ (invokeCb s c args).1 with
            pendingConts := (invokeCb s c args).1.pendingConts ++ [(e, c, w0)] } :
              EmitterState V) e = regGetD s e := by
          unfold regGetD
          rw [h4reg]
        have h4wf : RegWF ({ (invokeCb s c args).1 with
            pendingConts := (invokeCb s c args).1.pendingConts ++ [(e, c, w0)] } :
              EmitterState V).registry := by
          rw [h4reg]
          exact hw
        have hsub : ∀ x ∈ rest, x ∈ regGetD ({ (invokeCb s c args).1 with
            pendingConts := (invokeCb s c args).1.pendingConts ++ [(e, c, w0)] } :
              EmitterState V) e := by
          intro x hx
          rw [h4getD]
          exact hp x (List.mem_cons_of_mem c hx)
        have h4s0 : (({ (invokeCb s c args).1 with
            pendingConts := (invokeCb s c args).1.pendingConts ++ [(e, c, w0)] } :
              EmitterState V).meta c0).suspended = false := by
          show ((invokeCb s c args).1.meta c0).suspended = false
          rw [invokeCb_meta]
          exact hs0
        have h4b0 : (({ (invokeCb s c args).1 with
            pendingConts := (invokeCb s c args).1.pendingConts ++ [(e, c, w0)] } :
              EmitterState V).cbs c0).body = .resolver pid := by
          show ((invokeCb s c args).1.cbs c0).body = .resolver pid
          rw [invokeCb_cbs]
          exact hb0
        rcases invokeCb_promises_at s c args pid with hcase | hcase
        · refine ih _ _ _ h4wf hsub hndrest pid c0 hc0rest h4s0 h4b0 ?_
          show (invokeCb s c args).1.promises pid = .pending
          rw [hcase]
          exact hpend
        · refine emitLoop_promises_stable e args rest _ _ _ pid args ?_
          show (invokeCb s c args).1.promises pid = .resolved args
          exact hcase

end Emitter

namespace Emitter

variable {V : Type} [DecidableEq V] [Inhabited V]

/-- When redefining the `once` property throws, `on`/`once` rethrow
before touching the registry: the state is unchanged, no warning fires,
and the `TypeError` escapes. -/
theorem onWith_fail {b : Bool} {cfg : EmitterCfg} {s : EmitterState V}
    {e : String} {fid : Nat} (hd : defineOnce (s.meta fid) b = none) :
    onWith b cfg s e fid = ⟨s, false, true⟩ := by
  simp only [onWith]
  cases hr : regGet s.registry e <;> rw [hd] <;> rfl

/-- Effect of a successful `on`/`once` registration on every state
component, and the characterization of the thrown `TypeError`: the call
throws exactly when the limits mapping is absent. -/
theorem onWith_run (b : Bool) (cfg : EmitterCfg) (s : EmitterState V)
    (e : String) (fid : Nat) {d : ListenerData}
    (hd : defineOnce (s.meta fid) b = some d) :
    (onWith b cfg s e fid).state.registry = regSet s.registry e (insColl s e fid) ∧
    (onWith b cfg s e fid).state.meta = updf s.meta fid d ∧
    (onWith b cfg s e fid).state.cbs = s.cbs ∧
    (onWith b cfg s e fid).state.promises = s.promises ∧
    (onWith b cfg s e fid).state.pendingConts = s.pendingConts ∧
    (onWith b cfg s e fid).state.nextFid = s.nextFid ∧
    (onWith b cfg s e fid).state.nextPid = s.nextPid ∧
    ((onWith b cfg s e fid).threw = true ↔ cfg.limits = none) := by
  cases hr : regGet s.registry e with
  | none =>
    have hins : insColl s e fid = [fid] := by
      unfold insColl
      rw [hr]
    rw [hins]
    simp only [onWith, hr, hd, Option.map_some']
    cases hl : cfg.limits with
    | none =>
      simp only [hl]
      simp
    | some lim =>
      simp only [hl]
      split <;> simp
  | some l =>
    have hins : insColl s e fid = setAdd l fid := by
      unfold insColl
      rw [hr]
    rw [hins]
    simp only [onWith, hr, hd, Option.map_some']
    cases hl : cfg.limits with
    | none =>
      simp only [hl]
      simp
    | some lim =>
      simp only [hl]
      split <;> simp

/-- The post-insertion collection of a successful registration, read off
the resulting state. -/
theorem onWith_regGetD (b : Bool) (cfg : EmitterCfg) (s : EmitterState V)
    (e : String) (fid : Nat) {d : ListenerData}
    (hd : defineOnce (s.meta fid) b = some d) :
    regGetD (onWith b cfg s e fid).state e = insColl s e fid := by
  unfold regGetD
  rw [(onWith_run b cfg s e fid hd).1, regGet_regSet_self]
  rfl

/-- The warning flag of a successful registration with a configured
limit for the event name equals the source's guard: post-insertion size
strictly below the limit, not warned yet, and warnings enabled. -/
theorem onWith_warning_eq (b : Bool) {cfg : EmitterCfg} (s : EmitterState V)
    (e : String) (fid : Nat) {d : ListenerData} {lim : String → Option Nat}
    {n : Nat} (hd : defineOnce (s.meta fid) b = some d)
    (hl : cfg.limits = some lim) (hn : lim e = some n) :
    (onWith b cfg s e fid).warning =
      (decide ((insColl s e fid).length < n) && !s.warned &&
        decide (cfg.options.limitWarn = some true)) := by
  cases hr : regGet s.registry e with
  | none =>
    have hins : insColl s e fid = [fid] := by
      unfold insColl
      rw [hr]
    rw [hins]
    simp only [onWith, hr, hd, Option.map_some', hl, hn]
    have hsize : regGetD
        ({ s with
            meta := updf s.meta fid d,
            registry := regSet s.registry e [fid] } : EmitterState V) e = [fid] := by
      unfold regGetD
      show (regGet (regSet s.registry e [fid]) e).getD [] = [fid]
      rw [regGet_regSet_self]
      rfl
    rw [hsize]
    split
    · rename_i hcond
      exact hcond.symm
    · rename_i hcond
      rw [Bool.not_eq_true] at hcond
      exact hcond.symm
  | some l =>
    have hins : insColl s e fid = setAdd l fid := by
      unfold insColl
      rw [hr]
    rw [hins]
    simp only [onWith, hr, hd, Option.map_some', hl, hn]
    have hsize : regGetD
        ({ s with
            meta := updf s.meta fid d,
            registry := regSet s.registry e (setAdd l fid) } : EmitterState V) e =
          setAdd l fid := by
      unfold regGetD
      show (regGet (regSet s.registry e (setAdd l fid)) e).getD [] = setAdd l fid
      rw [regGet_regSet_self]
      rfl
    rw [hsize]
    split
    · rename_i hcond
      exact hcond.symm
    · rename_i hcond
      rw [Bool.not_eq_true] at hcond
      exact hcond.symm

/-- With a configured limits mapping but no limit for this event name,
no warning fires. -/
theorem onWith_warning_unconfigured (b : Bool) {cfg : EmitterCfg}
    (s : EmitterState V) (e : String) (fid : Nat) {d : ListenerData}
    {lim : String → Option Nat} (hd : defineOnce (s.meta fid) b = some d)
    (hl : cfg.limits = some lim) (hn : lim e = none) :
    (onWith b cfg s e fid).warning = false := by
  cases hr : regGet s.registry e <;>
    simp [onWith, hr, hd, Option.map_some', hl, hn]

/-- With an absent limits mapping, no warning fires (the guard throws
first). -/
theorem onWith_warning_noLimits (b : Bool) {cfg : EmitterCfg}
    (s : EmitterState V) (e : String) (fid : Nat)
    (hl : cfg.limits = none) :
    (onWith b cfg s e fid).warning = false := by
  cases hr : regGet s.registry e <;>
    cases hd : defineOnce (s.meta fid) b <;>
      simp [onWith, hr, hd, hl]

/-- Once the shared `warned` flag is set, no registration ever warns
again. -/
theorem onWith_warning_of_warned (b : Bool) (cfg : EmitterCfg)
    (s : EmitterState V) (e : String) (fid : Nat) (hwarn : s.warned = true) :
    (onWith b cfg s e fid).warning = false := by
  cases hr : regGet s.registry e <;>
    cases hd : defineOnce (s.meta fid) b <;>
      cases hl : cfg.limits <;>
        simp [onWith, hr, hd, hl, hwarn]

/-- When the warning fires, the shared `warned` flag is set in the
resulting state. -/
theorem onWith_warning_sets_warned (b : Bool) (cfg : EmitterCfg)
    (s : EmitterState V) (e : String) (fid : Nat)
    (h : (onWith b cfg s e fid).warning = true) :
    (onWith b cfg s e fid).state.warned = true := by
  cases hr : regGet s.registry e <;>
    cases hd : defineOnce (s.meta fid) b <;>
      cases hl : cfg.limits <;>
        simp only [onWith, hr, hd, hl, Option.map_some', Option.map_none'] at h ⊢ <;>
          first
          | cases h
          | (split at h
             · split
               · rfl
               · rename_i hc1 hc2
                 exact absurd hc1 hc2
             · cases h)

end Emitter

namespace Emitter

variable {V : Type} [DecidableEq V] [Inhabited V]

theorem count_pair_map (args : List V) :
    ∀ (L : List Nat), L.Nodup → ∀ c ∈ L,
      ((L.map (fun x => (x, args))).count (c, args)) = 1 := by
  intro L
  induction L with
  | nil =>
    intro _ c hc
    exact absurd hc (List.not_mem_nil c)
  | cons a L ih =>
    intro hnd c hc
    have haL : a ∉ L := (List.nodup_cons.1 hnd).1
    rw [List.map_cons]
    rcases List.mem_cons.1 hc with rfl | hc'
    · have h0 : ((L.map (fun x => (x, args))).count (c, args)) = 0 := by
        rw [List.count_eq_zero]
        intro hmem
        rcases List.mem_map.1 hmem with ⟨x, hx, hxx⟩
        have hxc : x = c := congrArg Prod.fst hxx
        subst hxc
        exact haL hx
      rw [List.count_cons_self, h0]
    · have hca : c ≠ a := fun hh => haL (hh ▸ hc')
      have hne : ((c, args) : Nat × List V) ≠ (a, args) := by
        intro hh
        exact hca (congrArg Prod.fst hh)
      rw [List.count_cons_of_ne hne]
      exact ih (List.nodup_cons.1 hnd).2 c hc'

/-- Unfolding `emit` on an existing collection. -/
theorem emit_eq_loop {s : EmitterState V} {e : String} {args : List V}
    {l : List Nat} (hl : regGet s.registry e = some l) :
    emit s e args = emitLoop e args l s [] [] := by
  unfold emit
  rw [hl]

/-- A listener absent from the collection is not invoked by `emit` and
stays absent; well-formedness is preserved. -/
theorem emit_not_mem (s : EmitterState V) (e : String) (args : List V)
    (c : Nat) (hw : RegWF s.registry) (hc : c ∉ regGetD s e) :
    (∀ a2, ((c, a2) : Nat × List V) ∉ (emit s e args).trace) ∧
    c ∉ regGetD (emit s e args).state e ∧
    RegWF (emit s e args).state.registry := by
  cases hl : regGet s.registry e with
  | none =>
    have hemit : emit s e args = ⟨s, [], []⟩ := by
      unfold emit
      rw [hl]
    rw [hemit]
    exact ⟨fun a2 hmem => absurd hmem (List.not_mem_nil _), hc, hw⟩
  | some l =>
    have hp : ∀ x ∈ l, x ∈ regGetD s e := by
      intro x hx
      unfold regGetD
      rw [hl]
      exact hx
    have hnd : l.Nodup := (RegWF_get hw hl).2
    have hrun := emitLoop_run e args l s [] [] hw hp hnd
    rw [emit_eq_loop hl]
    refine ⟨?_, ?_, hrun.1⟩
    · intro a2 hmem
      rw [hrun.2.1] at hmem
      simp only [List.nil_append] at hmem
      rcases List.mem_map.1 hmem with ⟨x, hx, hxx⟩
      have hxc : x = c := congrArg Prod.fst hxx
      subst hxc
      exact hc (hp x (List.mem_of_mem_filter hx))
    · intro hmem
      exact hc (hrun.2.2.2.2.2.2.2.2.1 c hmem)

/-- Once a listener is out of the collection, no later `emit` for that
event invokes it. -/
theorem emitMany_not_mem (e : String) (c : Nat) :
    ∀ (argss : List (List V)) (s : EmitterState V), RegWF s.registry →
      c ∉ regGetD s e →
      ∀ t ∈ (emitMany e argss s).2, ∀ a2, ((c, a2) : Nat × List V) ∉ t := by
  intro argss
  induction argss with
  | nil =>
    intro s _ _ t ht
    simp [emitMany] at ht
  | cons args rest ih =>
    intro s hw hc t ht a2
    obtain ⟨h1, h2, h3⟩ := emit_not_mem s e args c hw hc
    simp only [emitMany] at ht
    rcases List.mem_cons.1 ht with rfl | ht'
    · exact h1 a2
    · exact ih _ h3 h2 t ht' a2

/-- A settled promise stays settled through `emit`. -/
theorem emit_promises_stable (s : EmitterState V) (e : String) (args : List V)
    (q : Nat) (a : List V) (h : s.promises q = .resolved a) :
    (emit s e args).state.promises q = .resolved a := by
  cases hl : regGet s.registry e with
  | none =>
    have hemit : emit s e args = ⟨s, [], []⟩ := by
      unfold emit
      rw [hl]
    rw [hemit]
    exact h
  | some l =>
    rw [emit_eq_loop hl]
    exact emitLoop_promises_stable e args l s [] [] q a h

/-- A pending promise with a non-suspended registered resolver is
resolved by `emit` with the emitted arguments. -/
theorem emit_resolves (s : EmitterState V) (e : String) (args : List V)
    {L : List Nat} (hw : RegWF s.registry) (hL : regGet s.registry e = some L)
    (pid c0 : Nat) (hc0 : c0 ∈ L) (hs0 : (s.meta c0).suspended = false)
    (hb0 : (s.cbs c0).body = .resolver pid) (hpend : s.promises pid = .pending) :
    (emit s e args).state.promises pid = .resolved args := by
  rw [emit_eq_loop hL]
  refine emitLoop_resolves e args L s [] [] hw ?_ (RegWF_get hw hL).2
    pid c0 hc0 hs0 hb0 hpend
  intro x hx
  unfold regGetD
  rw [hL]
  exact hx

theorem onceAsync_def (cfg : EmitterCfg) (s : EmitterState V) (e : String) :
    onceAsync cfg s e =
      (if (once cfg (asyncPre s) e s.nextFid).threw then
        ({ (once cfg (asyncPre s) e s.nextFid).state with
            promises := updf (once cfg (asyncPre s) e s.nextFid).state.promises
              s.nextPid .rejected }, s.nextPid)
      else ((once cfg (asyncPre s) e s.nextFid).state, s.nextPid)) := rfl

end Emitter

namespace Emitter

variable {V : Type} [DecidableEq V] [Inhabited V]

/-- Effect of `onceAsync` with a configured limits mapping and a fresh
synthetic listener: a fresh pending promise is returned, the resolver is
appended at the end of the event's collection, and everything else is
untouched. -/
theorem onceAsync_step (cfg : EmitterCfg) (s : EmitterState V) (e : String)
    {lim : String → Option Nat} (hlim : cfg.limits = some lim)
    (hw : RegWF s.registry)
    (hm1 : (s.meta s.nextFid).once = none)
    (hm1s : (s.meta s.nextFid).suspended = false)
    (hmem1 : s.nextFid ∉ regGetD s e) :
    (onceAsync cfg s e).2 = s.nextPid ∧
    (onceAsync cfg s e).1.promises s.nextPid = .pending ∧
    (∀ q, q ≠ s.nextPid → (onceAsync cfg s e).1.promises q = s.promises q) ∧
    regGet (onceAsync cfg s e).1.registry e = some (regGetD s e ++ [s.nextFid]) ∧
    RegWF (onceAsync cfg s e).1.registry ∧
    (onceAsync cfg s e).1.nextFid = s.nextFid + 1 ∧
    (onceAsync cfg s e).1.nextPid = s.nextPid + 1 ∧
    ((onceAsync cfg s e).1.cbs s.nextFid).body = .resolver s.nextPid ∧
    (∀ x, x ≠ s.nextFid → (onceAsync cfg s e).1.cbs x = s.cbs x) ∧
    ((onceAsync cfg s e).1.meta s.nextFid).suspended = false ∧
    (∀ x, x ≠ s.nextFid → (onceAsync cfg s e).1.meta x = s.meta x) ∧
    (regGetD s e ++ [s.nextFid]).Nodup ∧
    (∀ e', e' ≠ e → regGet (onceAsync cfg s e).1.registry e' = regGet s.registry e') := by
  have hd : defineOnce ((asyncPre s).meta s.nextFid) true =
      some { s.meta s.nextFid with once := some true } := by
    show defineOnce (s.meta s.nextFid) true = _
    unfold defineOnce
    rw [hm1]
  have hrun := onWith_run true cfg (asyncPre s) e s.nextFid hd
  have hthrew : (once cfg (asyncPre s) e s.nextFid).threw = false := by
    unfold once
    cases hb : (onWith true cfg (asyncPre s) e s.nextFid).threw
    · rfl
    · have hcontra := hrun.2.2.2.2.2.2.2.mp hb
      rw [hlim] at hcontra
      cases hcontra
  have hoa : onceAsync cfg s e =
      ((once cfg (asyncPre s) e s.nextFid).state, s.nextPid) := by
    rw [onceAsync_def, if_neg (by rw [hthrew]; exact Bool.false_ne_true)]
  have hins : insColl (asyncPre s) e s.nextFid = regGetD s e ++ [s.nextFid] := by
    cases hr : regGet s.registry e with
    | none =>
      have h1 : insColl (asyncPre s) e s.nextFid = [s.nextFid] := by
        unfold insColl
        show (match regGet s.registry e with
          | none => [s.nextFid]
          | some l => setAdd l s.nextFid) = _
        rw [hr]
      rw [h1]
      unfold regGetD
      rw [hr]
      rfl
    | some l =>
      have hnl : s.nextFid ∉ l := by
        unfold regGetD at hmem1
        rw [hr] at hmem1
        exact hmem1
      have h1 : insColl (asyncPre s) e s.nextFid = l ++ [s.nextFid] := by
        unfold insColl
        show (match regGet s.registry e with
          | none => [s.nextFid]
          | some l => setAdd l s.nextFid) = _
        rw [hr]
        show setAdd l s.nextFid = l ++ [s.nextFid]
        unfold setAdd
        rw [if_neg hnl]
      rw [h1]
      unfold regGetD
      rw [hr]
      rfl
  have hndD : (regGetD s e).Nodup := by
    unfold regGetD
    cases hr : regGet s.registry e with
    | none => exact List.nodup_nil
    | some l => exact (RegWF_get hw hr).2
  have hndL : (regGetD s e ++ [s.nextFid]).Nodup := by
    refine List.Nodup.append hndD (List.nodup_singleton _) ?_
    intro x hx hxe
    rw [List.mem_singleton] at hxe
    subst hxe
    exact hmem1 hx
  rw [hoa]
  unfold once
  refine ⟨rfl, ?_, ?_, ?_, ?_, ?_, ?_, ?_, ?_, ?_, ?_, hndL, ?_⟩
  · rw [hrun.2.2.2.1]
    exact updf_self _ _ _
  · intro q hq
    rw [hrun.2.2.2.1]
    exact updf_ne _ _ hq
  · rw [hrun.1, regGet_regSet_self, hins]
  · rw [hrun.1, hins]
    exact RegWF_regSet hw (by simp) hndL
  · rw [hrun.2.2.2.2.2.1]
    rfl
  · rw [hrun.2.2.2.2.2.2.1]
    rfl
  · rw [hrun.2.2.1]
    show (updf s.cbs s.nextFid ⟨onceAsyncStr, .resolver s.nextPid⟩ s.nextFid).body = _
    rw [updf_self]
  · intro x hx
    rw [hrun.2.2.1]
    exact updf_ne _ _ hx
  · rw [hrun.2.1, updf_self]
    exact hm1s
  · intro x hx
    rw [hrun.2.1]
    exact updf_ne _ _ hx
  · intro e' he'
    rw [hrun.1]
    exact regGet_regSet_ne _ _ he'

end Emitter


/-- C1: for every event name, if no listener collection exists for that
name, `emit` returns an empty result set; otherwise `emit` invokes each
registered listener whose metadata does not mark it suspended exactly
once, with exactly the arguments passed to `emit`, in insertion order
(the invocation trace is exactly the non-suspended listeners of the
collection, in collection order, each paired with the emitted
arguments), and it returns the set of the immediate return values of
those listeners, built in invocation order. -/
theorem emit_dispatch_spec {V : Type} [DecidableEq V] [Inhabited V]
    (s : EmitterState V) (e : String) (args : List V)
    (hw : RegWF s.registry) :
    (regGet s.registry e = none → Emitter.emit s e args = ⟨s, [], []⟩) ∧
    (∀ l, regGet s.registry e = some l →
      (Emitter.emit s e args).trace =
        (l.filter (fun c => !(s.meta c).suspended)).map (fun c => (c, args)) ∧
      (Emitter.emit s e args).results =
        ((l.filter (fun c => !(s.meta c).suspended)).filterMap
          (Emitter.immRet s.cbs args)).foldl setAddV []) := by
  constructor
  · intro h
    unfold Emitter.emit
    rw [h]
  · intro l hl
    have hp : ∀ c ∈ l, c ∈ regGetD s e := by
      intro c hc
      unfold regGetD
      rw [hl]
      exact hc
    have hnd : l.Nodup := (RegWF_get hw hl).2
    have hrun := Emitter.emitLoop_run e args l s [] [] hw hp hnd
    rw [Emitter.emit_eq_loop hl]
    refine ⟨?_, hrun.2.2.1⟩
    rw [hrun.2.1]
    simp

theorem emit_dispatch_spec_witness :
    RegWF c1State.registry ∧
    (Emitter.emit c1State "foo" ["pide"]).results = ["doner", "kebab"] := by
  constructor
  · decide
  · have h := (emit_dispatch_spec c1State "foo" ["pide"] (by decide)).2 [1, 2] rfl
    rw [h.2]
    rfl

/-- C3: the code contradicts the specification here.  With an absent
limits mapping, the guard `this.limits !== 'undefined'` compares the
limits object to the string and passes, and the subsequent index into
`undefined` throws a `TypeError`: `on` and `once` both throw on a
dispatcher constructed without limits, instead of succeeding. -/
theorem on_without_limits_throws :
    (Emitter.on cfgN st0 "foo" 0).threw = true ∧
    (Emitter.once cfgN st0 "foo" 0).threw = true := by
  constructor
  · rfl
  · rfl

/-- C10: `listenerCount` branches on the truthiness of its argument, so
the empty string takes the no-argument branch: it returns the sum of all
collection sizes across the registry, not the size of the collection
registered under the empty-string name (concretely: with one listener
under "" and two under "a", `listenerCount ""` is 3, not 1). -/
theorem listenerCount_empty_string_total {V : Type} [DecidableEq V]
    [Inhabited V] (s : EmitterState V) :
    Emitter.listenerCount s (some "") = Emitter.listenerCount s none ∧
    Emitter.listenerCount s (some "") =
      s.registry.foldl (fun acc q => acc + q.2.length) 0 ∧
    Emitter.listenerCount c10State (some "") = 3 ∧
    regGet c10State.registry "" = some [7] := by
  refine ⟨rfl, rfl, rfl, rfl⟩

/-- C2: a listener registered via `once` (metadata `once = true`) whose
invocation returns an immediate value is invoked at most once across any
sequence of subsequent emits of that event: the first `emit` invokes it
exactly once and removes it from the registry, and it never appears in
the invocation trace of any later `emit` for that event. -/
theorem once_listener_at_most_once {V : Type} [DecidableEq V] [Inhabited V]
    (s : EmitterState V) (e : String) (args : List V) (l : List Nat)
    (c : Nat) (v : V) (hw : RegWF s.registry)
    (hl : regGet s.registry e = some l) (hc : c ∈ l)
    (ho : (s.meta c).once = some true) (hs : (s.meta c).suspended = false)
    (hi : Emitter.immRet s.cbs args c = some v) :
    (Emitter.emit s e args).trace.count (c, args) = 1 ∧
    c ∉ regGetD (Emitter.emit s e args).state e ∧
    (∀ (argss : List (List V)) (t : List (Nat × List V)),
      t ∈ (Emitter.emitMany e argss (Emitter.emit s e args).state).2 →
      ∀ a2, ((c, a2) : Nat × List V) ∉ t) := by
  have hp : ∀ x ∈ l, x ∈ regGetD s e := by
    intro x hx
    unfold regGetD
    rw [hl]
    exact hx
  have hnd : l.Nodup := (RegWF_get hw hl).2
  have hrun := Emitter.emitLoop_run e args l s [] [] hw hp hnd
  have hrem := hrun.2.2.2.2.2.2.2.2.2.2.1 c hc hs (by rw [hi]; rfl) ho
  refine ⟨?_, ?_, ?_⟩
  · rw [Emitter.emit_eq_loop hl, hrun.2.1]
    simp only [List.nil_append]
    refine Emitter.count_pair_map args _ (hnd.filter _) c ?_
    rw [List.mem_filter]
    exact ⟨hc, by rw [hs]; rfl⟩
  · rw [Emitter.emit_eq_loop hl]
    exact hrem
  · intro argss t ht a2
    refine Emitter.emitMany_not_mem e c argss (Emitter.emit s e args).state
      ?_ ?_ t ht a2
    · rw [Emitter.emit_eq_loop hl]
      exact hrun.1
    · rw [Emitter.emit_eq_loop hl]
      exact hrem

theorem once_listener_at_most_once_witness :
    RegWF c2State.registry ∧ (c2State.meta 1).once = some true ∧
    (Emitter.emit c2State "ev" ["x"]).trace.count (1, ["x"]) = 1 :=
  ⟨by decide, by decide,
   (once_listener_at_most_once c2State "ev" ["x"] [1] 1 "r" (by decide) rfl
     (by decide) (by decide) (by decide) rfl).1⟩

/-- C7: during an `emit` in which a once-listener is removed
mid-iteration, no sibling listener present in the collection at
emit-start is skipped or double-invoked: every non-suspended member of
the collection appears in the invocation trace exactly once (in
particular a not-yet-invoked sibling whose string representation equals
the removed once-listener's string, since `off` only deletes the
supplied reference). -/
theorem emit_no_skip_no_double {V : Type} [DecidableEq V] [Inhabited V]
    (s : EmitterState V) (e : String) (args : List V) (l : List Nat)
    (hw : RegWF s.registry) (hl : regGet s.registry e = some l) :
    ∀ c ∈ l, (s.meta c).suspended = false →
      (Emitter.emit s e args).trace.count (c, args) = 1 := by
  intro c hc hs
  have hp : ∀ x ∈ l, x ∈ regGetD s e := by
    intro x hx
    unfold regGetD
    rw [hl]
    exact hx
  have hnd : l.Nodup := (RegWF_get hw hl).2
  have hrun := Emitter.emitLoop_run e args l s [] [] hw hp hnd
  rw [Emitter.emit_eq_loop hl, hrun.2.1]
  simp only [List.nil_append]
  refine Emitter.count_pair_map args _ (hnd.filter _) c ?_
  rw [List.mem_filter]
  exact ⟨hc, by rw [hs]; rfl⟩

theorem emit_no_skip_no_double_witness :
    RegWF c7State.registry ∧ (c7State.meta 1).once = some true ∧
    (c7State.cbs 2).str = (c7State.cbs 1).str ∧
    (Emitter.emit c7State "tw" ["a"]).trace.count (2, ["a"]) = 1 ∧
    (Emitter.emit c7State "tw" ["a"]).trace.count (1, ["a"]) = 1 :=
  ⟨by decide, by decide, by decide,
   emit_no_skip_no_double c7State "tw" ["a"] [1, 2] (by decide) rfl 2
     (by decide) (by decide),
   emit_no_skip_no_double c7State "tw" ["a"] [1, 2] (by decide) rfl 1
     (by decide) (by decide)⟩

/-- C4: for a registration via `on`/`once` whose metadata definition
succeeds, the soft-limit warning fires if and only if a limit is
configured for the event name, the configured limit is strictly greater
than the post-insertion collection size, the instance has not already
warned, and `limitWarn` is enabled; when it fires the shared `warned`
flag is set; and once the flag is set no registration ever warns again,
for any event name. -/
theorem limit_warning_spec {V : Type} [DecidableEq V] [Inhabited V]
    (b : Bool) (cfg : EmitterCfg) (s : EmitterState V) (e : String)
    (fid : Nat) (d : ListenerData)
    (hd : defineOnce (s.meta fid) b = some d) :
    (∀ lim n, cfg.limits = some lim → lim e = some n →
      ((Emitter.onWith b cfg s e fid).warning = true ↔
        ((regGetD (Emitter.onWith b cfg s e fid).state e).length < n ∧
          s.warned = false ∧ cfg.options.limitWarn = some true))) ∧
    (∀ lim, cfg.limits = some lim → lim e = none →
      (Emitter.onWith b cfg s e fid).warning = false) ∧
    (cfg.limits = none → (Emitter.onWith b cfg s e fid).warning = false) ∧
    ((Emitter.onWith b cfg s e fid).warning = true →
      (Emitter.onWith b cfg s e fid).state.warned = true) ∧
    (∀ (b2 : Bool) (cfg2 : EmitterCfg) (s2 : EmitterState V) (e2 : String)
      (fid2 : Nat), s2.warned = true →
        (Emitter.onWith b2 cfg2 s2 e2 fid2).warning = false) := by
  refine ⟨?_, ?_, ?_, ?_, ?_⟩
  · intro lim n hl hn
    rw [Emitter.onWith_regGetD b cfg s e fid hd,
      Emitter.onWith_warning_eq b s e fid hd hl hn]
    simp [Bool.and_eq_true, decide_eq_true_eq, Bool.not_eq_true',
      and_assoc]
  · intro lim hl hn
    exact Emitter.onWith_warning_unconfigured b s e fid hd hl hn
  · intro hl
    exact Emitter.onWith_warning_noLimits b s e fid hl
  · exact Emitter.onWith_warning_sets_warned b cfg s e fid
  · intro b2 cfg2 s2 e2 fid2 hwarn
    exact Emitter.onWith_warning_of_warned b2 cfg2 s2 e2 fid2 hwarn

theorem limit_warning_spec_witness :
    defineOnce (st0.meta 0) false = some ⟨false, some false, false⟩ ∧
    (Emitter.onWith false c4cfg st0 "foo" 0).warning = true :=
  ⟨by decide,
   ((limit_warning_spec false c4cfg st0 "foo" 0 ⟨false, some false, false⟩
       (by decide)).1 (fun x => if x = "foo" then some 5 else none) 5 rfl
       (by decide)).mpr ⟨by decide, rfl, rfl⟩⟩

/-- C5 counterexample: `off` does not remove every member whose string
representation equals the supplied listener's.  With two distinct
callbacks of identical string both registered, `off` with the first
removes only the supplied reference; the string-equal sibling remains
registered (the claim would require the collection to become empty and
the key to be deleted). -/
theorem off_string_rule_cex :
    (c5State.cbs 2).str = (c5State.cbs 1).str ∧ (2 : Nat) ≠ 1 ∧
    (Emitter.off c5State "foo" (some 1)).registry = [("foo", [2])] :=
  ⟨by decide, by decide, by decide⟩

/-- C5 amended: `off(name, listener)` removes exactly the supplied
listener reference from the collection (it does so whenever the
listener is a member; string-equal members other than the supplied
reference are never removed); if the collection becomes empty the event
name is deleted from the registry; if no collection exists, or the
listener is omitted, or the listener is not a member, the state is
unchanged; `off` only ever modifies the registry (it returns the
dispatcher). -/
theorem off_removes_supplied_reference {V : Type} [DecidableEq V]
    [Inhabited V] (s : EmitterState V) (e : String)
    (hw : RegWF s.registry) :
    (∀ larg, regGet s.registry e = none → Emitter.off s e larg = s) ∧
    (Emitter.off s e none = s) ∧
    (∀ l a, regGet s.registry e = some l → a ∉ l →
      Emitter.off s e (some a) = s) ∧
    (∀ l a, regGet s.registry e = some l → a ∈ l →
      regGetD (Emitter.off s e (some a)) e = l.erase a ∧
      (l.erase a ≠ [] →
        (Emitter.off s e (some a)).registry = regSet s.registry e (l.erase a)) ∧
      (l.erase a = [] →
        regGet (Emitter.off s e (some a)).registry e = none)) := by
  refine ⟨fun larg h => Emitter.off_get_none s e larg h,
    Emitter.off_arg_none s e hw,
    fun l a hl ha => Emitter.off_not_mem s hw hl ha,
    fun l a hl ha => ?_⟩
  obtain ⟨hne, hnd⟩ := RegWF_get hw hl
  refine ⟨Emitter.off_regGetD_mem s hl hnd ha, ?_, ?_⟩
  · intro hne2
    rw [Emitter.off_registry_mem s hl hnd ha,
      if_pos (List.length_pos.2 hne2)]
  · intro he
    rw [Emitter.off_registry_mem s hl hnd ha, if_neg (by rw [he]; simp)]
    exact regGet_regDelete_self _ _

theorem off_removes_supplied_reference_witness :
    RegWF c5wState.registry ∧
    regGet (Emitter.off c5wState "bar" (some 4)).registry "bar" = none :=
  ⟨by decide,
   ((off_removes_supplied_reference c5wState "bar" (by decide)).2.2.2 [4] 4
     rfl (by decide)).2.2 (by decide)⟩

/-- C6 counterexample: after `once(a, f)` sets the non-configurable
`once` property to `true`, a later `on(b, f)` attempts to redefine it
with `false` and throws a `TypeError` instead of completing normally. -/
theorem once_then_on_cex :
    ((Emitter.once cfgE st0 "a" 0).state.meta 0).once = some true ∧
    (Emitter.on cfgE (Emitter.once cfgE st0 "a" 0).state "b" 0).threw = true :=
  ⟨by decide, by decide⟩

/-- C6 amended: the `once` metadata field is write-once with
first-assignment-wins semantics, but a later `on` call for a callback
whose `once` is already `true` does not complete normally: redefining
the non-configurable property throws a `TypeError` before any registry
mutation, so the call leaves the whole state (including the `once`
field, which stays `true`) unchanged and raises. -/
theorem on_after_once_throws {V : Type} [DecidableEq V] [Inhabited V]
    (cfg : EmitterCfg) (s : EmitterState V) (e : String) (f : Nat)
    (h : (s.meta f).once = some true) :
    Emitter.on cfg s e f = ⟨s, false, true⟩ := by
  unfold Emitter.on
  refine Emitter.onWith_fail ?_
  unfold defineOnce
  rw [h]
  rfl

theorem on_after_once_throws_witness :
    ((Emitter.once cfgE st0 "a" 5).state.meta 5).once = some true ∧
    Emitter.on cfgE (Emitter.once cfgE st0 "a" 5).state "b" 5 =
      ⟨(Emitter.once cfgE st0 "a" 5).state, false, true⟩ :=
  ⟨by decide, on_after_once_throws cfgE _ "b" 5 (by decide)⟩

namespace Emitter

variable {V : Type} [DecidableEq V] [Inhabited V]

theorem insColl_WF (s : EmitterState V) (e : String) (fid : Nat)
    (hw : RegWF s.registry) :
    insColl s e fid ≠ [] ∧ (insColl s e fid).Nodup := by
  cases hr : regGet s.registry e with
  | none =>
    have hred : insColl s e fid = [fid] := by
      unfold insColl
      rw [hr]
    rw [hred]
    exact ⟨by simp, List.nodup_singleton _⟩
  | some l =>
    have hred : insColl s e fid = setAdd l fid := by
      unfold insColl
      rw [hr]
    rw [hred]
    obtain ⟨hne, hnd⟩ := RegWF_get hw hr
    unfold setAdd
    by_cases hf : fid ∈ l
    · rw [if_pos hf]
      exact ⟨hne, hnd⟩
    · rw [if_neg hf]
      refine ⟨by simp, ?_⟩
      refine List.Nodup.append hnd (List.nodup_singleton _) ?_
      intro x hx hxe
      rw [List.mem_singleton] at hxe
      exact hf (hxe ▸ hx)

theorem onWith_WF (b : Bool) (cfg : EmitterCfg) (s : EmitterState V)
    (e : String) (fid : Nat) (hw : RegWF s.registry) :
    RegWF (onWith b cfg s e fid).state.registry := by
  cases hd : defineOnce (s.meta fid) b with
  | none =>
    rw [onWith_fail hd]
    exact hw
  | some d =>
    rw [(onWith_run b cfg s e fid hd).1]
    obtain ⟨h1, h2⟩ := insColl_WF s e fid hw
    exact RegWF_regSet hw h1 h2

theorem emit_WF (s : EmitterState V) (e : String) (args : List V)
    (hw : RegWF s.registry) : RegWF (emit s e args).state.registry := by
  cases hl : regGet s.registry e with
  | none =>
    have hemit : emit s e args = ⟨s, [], []⟩ := by
      unfold emit
      rw [hl]
    rw [hemit]
    exact hw
  | some l =>
    have hp : ∀ x ∈ l, x ∈ regGetD s e := by
      intro x hx
      unfold regGetD
      rw [hl]
      exact hx
    rw [emit_eq_loop hl]
    exact (emitLoop_run e args l s [] [] hw hp (RegWF_get hw hl).2).1

end Emitter

/-- C9: the registry invariant — every event name present in the
registry maps to a non-empty, duplicate-free listener collection, with
no duplicated names — is preserved by every mutating operation (`on`,
`once`, `onceAsync`, `off`, `emit`); the introspection operations do not
modify the state at all in the embedding. -/
theorem registry_invariant_preserved {V : Type} [DecidableEq V]
    [Inhabited V] (cfg : EmitterCfg) (s : EmitterState V) (e : String)
    (fid : Nat) (larg : Option Nat) (args : List V)
    (hw : RegWF s.registry) :
    RegWF (Emitter.on cfg s e fid).state.registry ∧
    RegWF (Emitter.once cfg s e fid).state.registry ∧
    RegWF (Emitter.onceAsync cfg s e).1.registry ∧
    RegWF (Emitter.off s e larg).registry ∧
    RegWF (Emitter.emit s e args).state.registry := by
  refine ⟨Emitter.onWith_WF false cfg s e fid hw,
    Emitter.onWith_WF true cfg s e fid hw, ?_,
    Emitter.RegWF_off s e larg hw,
    Emitter.emit_WF s e args hw⟩
  rw [Emitter.onceAsync_def]
  split
  · exact Emitter.onWith_WF true cfg (Emitter.asyncPre s) e s.nextFid hw
  · exact Emitter.onWith_WF true cfg (Emitter.asyncPre s) e s.nextFid hw

theorem registry_invariant_preserved_witness :
    RegWF c9State.registry ∧ RegWF (Emitter.off c9State "k" (some 6)).registry :=
  ⟨by decide,
   (registry_invariant_preserved cfgE c9State "k" 6 (some 6) []
     (by decide)).2.2.2.1⟩

/-- C8: a call to `onceAsync e` returns a fresh pending promise; the
first emission of `e` after the call resolves it with the full argument
list passed to that emit; a second emission leaves it resolved with the
same arguments (it settles exactly once); a subsequent `onceAsync e`
returns a new promise that is still pending until a further emit, which
then resolves it with that emit's arguments; and when two `onceAsync e`
promises are pending at the same emit, that one emit resolves both with
its argument list. -/
theorem onceAsync_resolves_on_first_emit {V : Type} [DecidableEq V]
    [Inhabited V] (cfg : EmitterCfg) (s : EmitterState V) (e : String)
    (lim : String → Option Nat) (hlim : cfg.limits = some lim)
    (hw : RegWF s.registry)
    (hm1 : (s.meta s.nextFid).once = none)
    (hm1s : (s.meta s.nextFid).suspended = false)
    (hmem1 : s.nextFid ∉ regGetD s e)
    (hm2 : (s.meta (s.nextFid + 1)).once = none)
    (hm2s : (s.meta (s.nextFid + 1)).suspended = false)
    (hmem2 : s.nextFid + 1 ∉ regGetD s e) :
    ((Emitter.onceAsync cfg s e).2 = s.nextPid ∧
      (Emitter.onceAsync cfg s e).1.promises s.nextPid = .pending) ∧
    (∀ args, (Emitter.emit (Emitter.onceAsync cfg s e).1 e args).state.promises
      s.nextPid = .resolved args) ∧
    (∀ args args2, (Emitter.emit (Emitter.emit (Emitter.onceAsync cfg s e).1
      e args).state e args2).state.promises s.nextPid = .resolved args) ∧
    ((Emitter.onceAsync cfg (Emitter.onceAsync cfg s e).1 e).2 = s.nextPid + 1 ∧
      (Emitter.onceAsync cfg (Emitter.onceAsync cfg s e).1 e).1.promises
        s.nextPid = .pending ∧
      (Emitter.onceAsync cfg (Emitter.onceAsync cfg s e).1 e).1.promises
        (s.nextPid + 1) = .pending ∧
      (∀ args,
        (Emitter.emit (Emitter.onceAsync cfg (Emitter.onceAsync cfg s e).1 e).1
          e args).state.promises s.nextPid = .resolved args ∧
        (Emitter.emit (Emitter.onceAsync cfg (Emitter.onceAsync cfg s e).1 e).1
          e args).state.promises (s.nextPid + 1) = .resolved args)) ∧
    (∀ args,
      (Emitter.onceAsync cfg (Emitter.emit (Emitter.onceAsync cfg s e).1 e
        args).state e).2 = s.nextPid + 1 ∧
      (Emitter.onceAsync cfg (Emitter.emit (Emitter.onceAsync cfg s e).1 e
        args).state e).1.promises (s.nextPid + 1) = .pending ∧
      (Emitter.onceAsync cfg (Emitter.emit (Emitter.onceAsync cfg s e).1 e
        args).state e).1.promises s.nextPid = .resolved args ∧
      (∀ args3,
        (Emitter.emit (Emitter.onceAsync cfg (Emitter.emit
          (Emitter.onceAsync cfg s e).1 e args).state e).1 e
          args3).state.promises (s.nextPid + 1) = .resolved args3)) := by
  obtain ⟨a1, a2, a3, a4, a5, a6, a7, a8, a9, a10, a11, a12, a13⟩ :=
    Emitter.onceAsync_step cfg s e hlim hw hm1 hm1s hmem1
  have hgd1 : regGetD (Emitter.onceAsync cfg s e).1 e =
      regGetD s e ++ [s.nextFid] := by
    unfold regGetD
    rw [a4]
    rfl
  have hfin1 : s.nextFid ∈ regGetD s e ++ [s.nextFid] := by simp
  have hii : ∀ args,
      (Emitter.emit (Emitter.onceAsync cfg s e).1 e args).state.promises
        s.nextPid = .resolved args := by
    intro args
    exact Emitter.emit_resolves (Emitter.onceAsync cfg s e).1 e args a5 a4
      s.nextPid s.nextFid hfin1 a10 a8 a2
  have hm2' : ((Emitter.onceAsync cfg s e).1.meta
      ((Emitter.onceAsync cfg s e).1.nextFid)).once = none := by
    rw [a6, a11 (s.nextFid + 1) (by omega)]
    exact hm2
  have hm2s' : ((Emitter.onceAsync cfg s e).1.meta
      ((Emitter.onceAsync cfg s e).1.nextFid)).suspended = false := by
    rw [a6, a11 (s.nextFid + 1) (by omega)]
    exact hm2s
  have hmem2' : (Emitter.onceAsync cfg s e).1.nextFid ∉
      regGetD (Emitter.onceAsync cfg s e).1 e := by
    rw [a6, hgd1]
    intro hmem
    rcases List.mem_append.1 hmem with h1 | h1
    · exact hmem2 h1
    · rw [List.mem_singleton] at h1
      omega
  refine ⟨⟨a1, a2⟩, hii, ?_, ?_, ?_⟩
  · intro args args2
    exact Emitter.emit_promises_stable _ e args2 s.nextPid args (hii args)
  · obtain ⟨b1, b2, b3, b4, b5, b6, b7, b8, b9, b10, b11, b12, b13⟩ :=
      Emitter.onceAsync_step cfg (Emitter.onceAsync cfg s e).1 e hlim a5
        hm2' hm2s' hmem2'
    have hq1 : (Emitter.onceAsync cfg (Emitter.onceAsync cfg s e).1 e).1.promises
        s.nextPid = .pending := by
      rw [b3 s.nextPid (by rw [a7]; omega)]
      exact a2
    have hq2 : (Emitter.onceAsync cfg (Emitter.onceAsync cfg s e).1 e).1.promises
        (s.nextPid + 1) = .pending := by
      have := b2
      rw [a7] at this
      exact this
    refine ⟨b1.trans a7, hq1, hq2, ?_⟩
    intro args
    constructor
    · refine Emitter.emit_resolves _ e args b5 b4 s.nextPid s.nextFid ?_ ?_ ?_ hq1
      · refine List.mem_append_left _ ?_
        rw [hgd1]
        exact hfin1
      · rw [b11 s.nextFid (by rw [a6]; omega)]
        exact a10
      · rw [b9 s.nextFid (by rw [a6]; omega)]
        exact a8
    · refine Emitter.emit_resolves _ e args b5 b4 (s.nextPid + 1)
        ((Emitter.onceAsync cfg s e).1.nextFid) ?_ b10 ?_ hq2
      · simp
      · rw [b8, a7]
  · intro args
    have hp1 : ∀ x ∈ regGetD s e ++ [s.nextFid],
        x ∈ regGetD (Emitter.onceAsync cfg s e).1 e := by
      intro x hx
      rw [hgd1]
      exact hx
    have hrunE := Emitter.emitLoop_run e args (regGetD s e ++ [s.nextFid])
      (Emitter.onceAsync cfg s e).1 [] [] a5 hp1 a12
    have hemitE : Emitter.emit (Emitter.onceAsync cfg s e).1 e args =
        Emitter.emitLoop e args (regGetD s e ++ [s.nextFid])
          (Emitter.onceAsync cfg s e).1 [] [] :=
      Emitter.emit_eq_loop a4
    have htwf : RegWF (Emitter.emit (Emitter.onceAsync cfg s e).1 e
        args).state.registry := by
      rw [hemitE]
      exact hrunE.1
    have htnf : (Emitter.emit (Emitter.onceAsync cfg s e).1 e
        args).state.nextFid = s.nextFid + 1 := by
      rw [hemitE, hrunE.2.2.2.2.2.2.1]
      exact a6
    have htnp : (Emitter.emit (Emitter.onceAsync cfg s e).1 e
        args).state.nextPid = s.nextPid + 1 := by
      rw [hemitE, hrunE.2.2.2.2.2.2.2.1]
      exact a7
    have htm : ∀ x, ((Emitter.emit (Emitter.onceAsync cfg s e).1 e
        args).state.meta x).suspended =
          ((Emitter.onceAsync cfg s e).1.meta x).suspended ∧
        ((Emitter.emit (Emitter.onceAsync cfg s e).1 e
          args).state.meta x).once =
          ((Emitter.onceAsync cfg s e).1.meta x).once := by
      intro x
      rw [hemitE]
      exact hrunE.2.2.2.2.1 x
    have htm1 : ((Emitter.emit (Emitter.onceAsync cfg s e).1 e
        args).state.meta ((Emitter.emit (Emitter.onceAsync cfg s e).1 e
          args).state.nextFid)).once = none := by
      rw [htnf, (htm (s.nextFid + 1)).2, a11 (s.nextFid + 1) (by omega)]
      exact hm2
    have htm1s : ((Emitter.emit (Emitter.onceAsync cfg s e).1 e
        args).state.meta ((Emitter.emit (Emitter.onceAsync cfg s e).1 e
          args).state.nextFid)).suspended = false := by
      rw [htnf, (htm (s.nextFid + 1)).1, a11 (s.nextFid + 1) (by omega)]
      exact hm2s
    have htmem : (Emitter.emit (Emitter.onceAsync cfg s e).1 e
        args).state.nextFid ∉
          regGetD (Emitter.emit (Emitter.onceAsync cfg s e).1 e args).state e := by
      rw [htnf]
      intro hmem
      have hsub : s.nextFid + 1 ∈ regGetD (Emitter.onceAsync cfg s e).1 e := by
        rw [hemitE] at hmem
        exact hrunE.2.2.2.2.2.2.2.2.1 _ hmem
      rw [hgd1] at hsub
      rcases List.mem_append.1 hsub with h1 | h1
      · exact hmem2 h1
      · rw [List.mem_singleton] at h1
        omega
    obtain ⟨c1, c2, c3, c4, c5, c6, c7, c8, c9, c10, c11, c12, c13⟩ :=
      Emitter.onceAsync_step cfg (Emitter.emit (Emitter.onceAsync cfg s e).1
        e args).state e hlim htwf htm1 htm1s htmem
    have hv2 : (Emitter.onceAsync cfg (Emitter.emit
        (Emitter.onceAsync cfg s e).1 e args).state e).1.promises
          (s.nextPid + 1) = .pending := by
      have := c2
      rw [htnp] at this
      exact this
    refine ⟨c1.trans htnp, hv2, ?_, ?_⟩
    · rw [c3 s.nextPid (by rw [htnp]; omega)]
      exact hii args
    · intro args3
      refine Emitter.emit_resolves _ e args3 c5 c4 (s.nextPid + 1)
        ((Emitter.emit (Emitter.onceAsync cfg s e).1 e args).state.nextFid)
        ?_ c10 ?_ hv2
      · simp
      · rw [c8, htnp]

theorem onceAsync_resolves_on_first_emit_witness :
    RegWF st0.registry ∧ st0.nextFid ∉ regGetD st0 "z" ∧
    (Emitter.emit (Emitter.onceAsync cfgE st0 "z").1 "z" ["v"]).state.promises 0 =
      .resolved ["v"] :=
  ⟨by decide, by decide,
   (onceAsync_resolves_on_first_emit cfgE st0 "z" (fun _ => none) rfl
     (by decide) (by decide) (by decide) (by decide) (by decide) (by decide)
     (by decide)).2.1 ["v"]⟩
